import Mathlib

/-!
# A verification development for `go-resthelp`

The Go package `resthelp` (files `helper.go`, `request.go`, `response.go`) is a thin layer over
`net/http`: a `Helper` carries reusable defaults, `NewRequest` builds a request from it, and a
`Response` wraps the executed request.

The package code is embedded function by function.  Go values are modelled as follows.

* A Go `string` is a list of bytes (`GoString`); a `byte` is `Fin 256`, so byte arithmetic wraps.
* A Go `map[string]T` is an association list with pairwise distinct keys (`GoMap`).  A nil map
  and an empty map are both the empty list: the package only ever reads, ranges over, or
  (after `make`) writes a map, and for those operations Go treats nil and empty alike.
* A pointer that may be nil is an `Option`; a nil dereference (a Go panic) is the result `none`
  of a function whose result type is an `Option`.
* Standard-library code that the package calls is either written out after the Go sources
  (`url.QueryEscape`, `url.QueryUnescape`, `url.ParseQuery`, `url.Values`, `url.URL.String`,
  `base64.StdEncoding`) or, where the claims do not depend on its inner working, taken as a
  field of the record `Env` (`url.Parse`, `url.JoinPath`, `json.Marshal`, the HTTP client, ...).
-/

set_option linter.dupNamespace false

namespace Resthelp

/-! ## Bytes and strings -/

/-- A Go `byte`. -/
abbrev Byte := Fin 256

/-- A Go `string`: a sequence of bytes. -/
abbrev GoString := List Byte

/-- The byte of an ASCII character, as in a Go character constant such as `'%'`. -/
def ch (c : Char) : Byte := Fin.ofNat c.toNat

/-- UTF-8 encoding of one code point, as the Go compiler stores string constants. -/
def utf8 (c : Char) : GoString :=
  let n := c.toNat
  if n < 128 then [Fin.ofNat n]
  else if n < 2048 then [Fin.ofNat (192 + n / 64), Fin.ofNat (128 + n % 64)]
  else if n < 65536 then
    [Fin.ofNat (224 + n / 4096), Fin.ofNat (128 + n / 64 % 64), Fin.ofNat (128 + n % 64)]
  else
    [Fin.ofNat (240 + n / 262144), Fin.ofNat (128 + n / 4096 % 64),
     Fin.ofNat (128 + n / 64 % 64), Fin.ofNat (128 + n % 64)]

/-- A Go string constant. -/
def str (s : String) : GoString := s.toList.flatMap utf8

/-- Go's `<` on strings: bytewise lexicographic, a proper initial segment comes first. -/
def strLt : GoString → GoString → Bool
  | [], [] => false
  | [], _ :: _ => true
  | _ :: _, [] => false
  | a :: as, b :: bs => if a < b then true else if b < a then false else strLt as bs

/-- Go's `<=` on strings. -/
def strLe (a b : GoString) : Bool := !strLt b a

/-- The function `strings.Cut(s, sep)` for a one-byte separator: the text before the first
occurrence of `sep`, the text after it, and whether `sep` occurs. -/
def cut (sep : Byte) : GoString → GoString × GoString × Bool
  | [] => ([], [], false)
  | c :: cs =>
    if c = sep then ([], cs, true)
    else ((c :: (cut sep cs).1), (cut sep cs).2.1, (cut sep cs).2.2)

/-- The pieces of `s` between occurrences of `sep`, in order; there is always at least one. -/
def splitOn (sep : Byte) : GoString → List GoString
  | [] => [[]]
  | c :: cs =>
    if c = sep then [] :: splitOn sep cs
    else
      match splitOn sep cs with
      | [] => [[c]]
      | seg :: segs => (c :: seg) :: segs

/-- Decimal digits of a natural number, as printed by `fmt.Sprint` for a non-negative `int`. -/
def decimal (n : Nat) : GoString := str (toString n)

/-! ## Errors -/

/-- A Go `error` value.  `unknownCT` is the package's `errorUnknownCT`; every other error
comes out of the standard library and is identified by its message. -/
inductive GoError where
  | unknownCT (ct : GoString)
  | lib (msg : GoString)
deriving DecidableEq

/-- The method `Error()` of an error value (`errorUnknownCT.Error` for the package's own). -/
def GoError.Error : GoError → GoString
  | .unknownCT ct => str "unknown content-type: '" ++ ct ++ str "'"
  | .lib msg => msg

/-! ## Maps -/

/-- A Go `map[string]β`. -/
abbrev GoMap (β : Type) := List (GoString × β)

/-- The map read `m[k]` in its two-result form: `none` when the key is absent. -/
def mapGet {β : Type} : GoMap β → GoString → Option β
  | [], _ => none
  | (k', x) :: rest, k => if k' = k then some x else mapGet rest k

/-- The map write `m[k] = x`. -/
def mapSet {β : Type} : GoMap β → GoString → β → GoMap β
  | [], k, x => [(k, x)]
  | (k', y) :: rest, k, x => if k' = k then (k, x) :: rest else (k', y) :: mapSet rest k x

/-- The keys of a map. -/
def mapKeys {β : Type} (m : GoMap β) : List GoString := m.map Prod.fst

/-! ## `net/url`: query escaping -/

/-- The function `shouldEscape(c, encodeQueryComponent)`: everything but ASCII letters, digits
and `- _ . ~` is escaped in a query component. -/
def shouldEscape (c : Byte) : Bool :=
  if (ch 'a' ≤ c ∧ c ≤ ch 'z') ∨ (ch 'A' ≤ c ∧ c ≤ ch 'Z') ∨ (ch '0' ≤ c ∧ c ≤ ch '9') then false
  else if c = ch '-' ∨ c = ch '_' ∨ c = ch '.' ∨ c = ch '~' then false
  else true

/-- The table `upperhex = "0123456789ABCDEF"`, indexed. -/
def upperhex (i : Byte) : Byte := (str "0123456789ABCDEF").getD i.val 0

/-- The function `url.QueryEscape`: a space becomes `+`, every other byte that has to be
escaped becomes `%XX` with upper-case hexadecimal digits. -/
def QueryEscape : GoString → GoString
  | [] => []
  | c :: cs =>
    if c = ch ' ' then ch '+' :: QueryEscape cs
    else if shouldEscape c then
      ch '%' :: upperhex (c >>> 4) :: upperhex (c &&& 15) :: QueryEscape cs
    else c :: QueryEscape cs

/-- The function `ishex`. -/
def ishex (c : Byte) : Bool :=
  if ch '0' ≤ c ∧ c ≤ ch '9' then true
  else if ch 'a' ≤ c ∧ c ≤ ch 'f' then true
  else if ch 'A' ≤ c ∧ c ≤ ch 'F' then true
  else false

/-- The function `unhex`. -/
def unhex (c : Byte) : Byte :=
  if ch '0' ≤ c ∧ c ≤ ch '9' then c - ch '0'
  else if ch 'a' ≤ c ∧ c ≤ ch 'f' then c - ch 'a' + 10
  else if ch 'A' ≤ c ∧ c ≤ ch 'F' then c - ch 'A' + 10
  else 0

/-- The function `url.QueryUnescape`.  Go validates the whole string first (a `%` that is not
followed by two hexadecimal digits is an `EscapeError`) and decodes in a second pass; here both
passes are one recursion, with `none` for the error. -/
def QueryUnescape : GoString → Option GoString
  | [] => some []
  | c :: cs =>
    if c = ch '%' then
      match cs with
      | h1 :: h2 :: rest =>
        if ishex h1 ∧ ishex h2 then
          (QueryUnescape rest).map (fun t => (unhex h1 <<< 4 ||| unhex h2) :: t)
        else none
      | _ => none
    else if c = ch '+' then (QueryUnescape cs).map (fun t => ch ' ' :: t)
    else (QueryUnescape cs).map (fun t => c :: t)

/-! ## `net/url`: query values and URLs -/

/-- The type `url.Values`, a `map[string][]string`. -/
abbrev Values := GoMap (List GoString)

/-- The method `Values.Add`: `v[key] = append(v[key], value)`. -/
def Values.Add (v : Values) (key value : GoString) : Values :=
  mapSet v key ((mapGet v key).getD [] ++ [value])

/-- One turn of the loop of `parseQuery`, for the piece `key` cut off at the next `&`.  A piece
that holds a `;`, is empty, or does not unescape is skipped (Go records an error and goes on);
otherwise the piece is cut at its first `=` and the unescaped pair is added. -/
def parseQueryStep (m : Values) (key : GoString) : Values :=
  if ch ';' ∈ key then m
  else if key = [] then m
  else
    match QueryUnescape (cut (ch '=') key).1 with
    | none => m
    | some k =>
      match QueryUnescape (cut (ch '=') key).2.1 with
      | none => m
      | some value => Values.Add m k value

/-- The function `url.ParseQuery`, without its error result (which `URL.Query` drops).  Go's
loop cuts `query` at each `&` until nothing is left; that is one step for each piece. -/
def ParseQuery (query : GoString) : Values :=
  (splitOn (ch '&') query).foldl parseQueryStep []

/-- Insertion of a key into a list of keys that is in ascending order. -/
def insertKey (k : GoString) : List GoString → List GoString
  | [] => [k]
  | k' :: ks => if strLe k k' then k :: k' :: ks else k' :: insertKey k ks

/-- The call `slices.Sort(keys)` on the keys of a map: the keys in ascending order.  The keys of
a map are pairwise distinct, so every sorting algorithm returns the same list. -/
def sortKeys : List GoString → List GoString
  | [] => []
  | k :: ks => insertKey k (sortKeys ks)

/-- The inner loop of `Values.Encode` for one key: every value of the key is written as
`key=value`, both escaped, with a `&` in front unless the buffer is still empty. -/
def encodeKey (keyEscaped : GoString) (vs : List GoString) (buf : GoString) : GoString :=
  vs.foldl (fun buf v =>
    (if buf.length > 0 then buf ++ [ch '&'] else buf) ++ keyEscaped ++ [ch '='] ++ QueryEscape v)
    buf

/-- The method `Values.Encode`: the pairs in "URL encoded" form, sorted by key. -/
def Values.Encode (v : Values) : GoString :=
  (sortKeys (mapKeys v)).foldl
    (fun buf k => encodeKey (QueryEscape k) ((mapGet v k).getD []) buf) []

/-- The type `url.URL`, as far as the package can observe it.  `hier` stands for what
`URL.String` writes for the fields `Scheme`, `Opaque`, `User`, `Host` and `Path` (everything in
front of the query), `Fragment` for the escaped form of the fragment. -/
structure URL where
  hier : GoString
  RawQuery : GoString
  ForceQuery : Bool
  Fragment : GoString
deriving DecidableEq

/-- The method `URL.String`. -/
def URL.String (u : URL) : GoString :=
  u.hier
    ++ (if u.ForceQuery ∨ u.RawQuery ≠ [] then ch '?' :: u.RawQuery else [])
    ++ (if u.Fragment ≠ [] then ch '#' :: u.Fragment else [])

/-- The method `URL.Query`: `ParseQuery(u.RawQuery)`, errors dropped. -/
def URL.Query (u : URL) : Values := ParseQuery u.RawQuery

/-! ## `net/http`: headers and requests -/

/-- The type `http.Header`, a `map[string][]string`. -/
abbrev Header := GoMap (List GoString)

/-- An `io.Reader` handed over as a request body.  The package never reads it; it is
identified with the bytes it yields. -/
abbrev Reader := GoString

/-- The type `http.Request`, as far as the package uses it. -/
structure HTTPRequest where
  Method : GoString
  URL : URL
  Header : Header
  Body : Option Reader
deriving DecidableEq

/-- The body stream of an HTTP response, an object owned by the transport: the bytes it has
yet to deliver, the error its reading ends with (`none` for a clean end of file), and how often
it has been read to the end and closed. -/
structure Stream where
  pending : GoString
  failure : Option GoError
  readCalls : Nat
  closeCalls : Nat
deriving DecidableEq

/-- The call `io.ReadAll(body)`: the bytes up to the end or the first error, and that error.
The stream is drained by it. -/
def ioReadAll (s : Stream) : (GoString × Option GoError) × Stream :=
  ((s.pending, s.failure), { s with pending := [], readCalls := s.readCalls + 1 })

/-- The call `body.Close()`. -/
def Stream.Close (s : Stream) : Stream := { s with closeCalls := s.closeCalls + 1 }

/-- The type `http.Response`, as far as the package uses it.  `Body` tells whether the field
`Body` still refers to the body stream (`true`) or is nil (`false`). -/
structure HTTPResponse where
  Status : GoString
  StatusCode : Int
  Header : Header
  Body : Bool
deriving DecidableEq

/-! ## The standard library as used by the package -/

/-- The standard-library functions whose result the package only passes on.  `Value` is the
type of the values behind `interface{}` (what is serialised, and the target of a decoder). -/
structure Env (Value : Type) where
  /-- The function `url.JoinPath(base, elem)`. -/
  urlJoinPath : GoString → GoString → Except GoError GoString
  /-- The function `url.Parse`. -/
  urlParse : GoString → Except GoError URL
  /-- The test `validMethod` of `net/http`. -/
  validMethod : GoString → Bool
  /-- The statement `u.Host = removeEmptyPort(u.Host)` of `http.NewRequest`. -/
  removeEmptyPort : URL → URL
  /-- The function `textproto.CanonicalMIMEHeaderKey`. -/
  canonicalMIMEHeaderKey : GoString → GoString
  /-- The function `json.Marshal`. -/
  jsonMarshal : Value → Except GoError GoString
  /-- The function `xml.Marshal`. -/
  xmlMarshal : Value → Except GoError GoString
  /-- The function `json.Unmarshal(data, v)`: the target after decoding, and the error. -/
  jsonUnmarshal : GoString → Value → Value × Option GoError
  /-- The function `xml.Unmarshal(data, v)`. -/
  xmlUnmarshal : GoString → Value → Value × Option GoError
  /-- The media type returned by `mime.ParseMediaType` (empty when the header is malformed). -/
  parseMediaType : GoString → GoString
  /-- The method `http.Client.Do` for a client with the given timeout: a response or nil, and
  an error or nil. -/
  clientDo : Int → HTTPRequest → Option HTTPResponse × Option GoError

/-- The method `Header.Add`: the value is appended under the canonical form of the key. -/
def Header.Add {Value : Type} (env : Env Value) (h : Header) (key value : GoString) : Header :=
  mapSet h (env.canonicalMIMEHeaderKey key)
    ((mapGet h (env.canonicalMIMEHeaderKey key)).getD [] ++ [value])

/-- The method `Header.Values`: all values under the canonical form of the key. -/
def Header.Values {Value : Type} (env : Env Value) (h : Header) (key : GoString) :
    List GoString :=
  (mapGet h (env.canonicalMIMEHeaderKey key)).getD []

/-- The method `Header.Get`: the first value under the canonical form of the key, or `""`. -/
def Header.Get {Value : Type} (env : Env Value) (h : Header) (key : GoString) : GoString :=
  (Header.Values env h key).headD []

/-- The function `http.NewRequest(method, url, body)`: an empty method means `GET`, the method
has to be valid, the URL has to parse; the request starts with an empty header. -/
def httpNewRequest {Value : Type} (env : Env Value) (method url : GoString)
    (body : Option Reader) : Except GoError HTTPRequest :=
  let method := if method = [] then str "GET" else method
  if ¬ env.validMethod method then .error (.lib (str "net/http: invalid method"))
  else
    match env.urlParse url with
    | .error e => .error e
    | .ok u => .ok { Method := method, URL := env.removeEmptyPort u, Header := [], Body := body }

/-! ## `encoding/base64` -/

/-- The alphabet of `base64.StdEncoding`, indexed. -/
def encodeStd (i : Nat) : Byte :=
  (str "ABCDEFGHIJKLMNOPQRSTUVWXYZabcdefghijklmnopqrstuvwxyz0123456789+/").getD i 0

/-- The method `base64.StdEncoding.EncodeToString`: three bytes give four digits; a rest of one
or two bytes gives two or three digits, padded with `=`. -/
def base64Encode : GoString → GoString
  | [] => []
  | [a] =>
    let val := a.val <<< 16
    [encodeStd (val >>> 18 &&& 63), encodeStd (val >>> 12 &&& 63), ch '=', ch '=']
  | [a, b] =>
    let val := a.val <<< 16 ||| b.val <<< 8
    [encodeStd (val >>> 18 &&& 63), encodeStd (val >>> 12 &&& 63),
     encodeStd (val >>> 6 &&& 63), ch '=']
  | a :: b :: c :: rest =>
    let val := a.val <<< 16 ||| b.val <<< 8 ||| c.val
    encodeStd (val >>> 18 &&& 63) :: encodeStd (val >>> 12 &&& 63) ::
      encodeStd (val >>> 6 &&& 63) :: encodeStd (val &&& 63) :: base64Encode rest

/-! ## `helper.go` -/

/-- The constant `time.Second`, in nanoseconds (the unit of `time.Duration`). -/
def second : Int := 1000000000

/-- The constant `defaultTimeout = 15 * time.Second`. -/
def defaultTimeout : Int := 15 * second

/-- The type `Parser`, a `func(interface{}) error` that may be nil.  A call yields the target
as the function leaves it and the error. -/
abbrev Parser (Value : Type) := Option (Value → Value × Option GoError)

/-- The field `client` of a `Helper`, an `http.Client`; only its `Timeout` is ever set. -/
structure HTTPClient where
  Timeout : Int
deriving DecidableEq

/-- The type `Helper`. -/
structure Helper (Value : Type) where
  baseURL : GoString
  headers : GoMap GoString
  client : HTTPClient
  parsers : GoMap (Parser Value)

/-- The type `HelperOption`, a `func(*Helper)`: the helper after the call. -/
abbrev HelperOption (Value : Type) := Helper Value → Helper Value

/-- The loop `for _, opt := range opts { opt(h) }` of `New`. -/
def New.loop {Value : Type} : List (HelperOption Value) → Helper Value → Helper Value
  | [], h => h
  | opt :: opts, h => New.loop opts (opt h)

/-- The function `New`. -/
def New {Value : Type} (opts : List (HelperOption Value)) : Helper Value :=
  New.loop opts { baseURL := [], headers := [], client := { Timeout := defaultTimeout },
                  parsers := [] }

/-- The function `WithBaseURL`. -/
def WithBaseURL {Value : Type} (base : GoString) : HelperOption Value :=
  fun h => { h with baseURL := base }

/-- The function `WithTimeout`. -/
def WithTimeout {Value : Type} (d : Int) : HelperOption Value :=
  fun h => { h with client := { h.client with Timeout := d } }

/-- The function `WithHeader`. -/
def WithHeader {Value : Type} (k v : GoString) : HelperOption Value :=
  fun h => { h with headers := mapSet h.headers k v }

/-- The function `WithParser`. -/
def WithParser {Value : Type} (mimeType : GoString) (fn : Parser Value) : HelperOption Value :=
  fun h => { h with parsers := mapSet h.parsers mimeType fn }

/-- The function `basicAuth`. -/
def basicAuth (username password : GoString) : GoString :=
  base64Encode (username ++ str ":" ++ password)

/-- The function `WithBasicAuth`. -/
def WithBasicAuth {Value : Type} (username password : GoString) : HelperOption Value :=
  WithHeader (str "Authorization") (str "Basic " ++ basicAuth username password)

/-! ## `request.go` -/

/-- The constant `headerContentType`. -/
def headerContentType : GoString := str "Content-Type"

/-- The type `Request`.  `helper` is the helper the request was made from, `req` the
`*http.Request`, nil until `NewRequest` has built it. -/
structure Request (Value : Type) where
  helper : Helper Value
  req : Option HTTPRequest
  method : GoString
  url : URL
  body : Option Reader
  headers : GoMap GoString
  query : GoMap GoString

/-- The type `RequestOption`, a `func(*Request)`: the request after the call. -/
abbrev RequestOption (Value : Type) := Request Value → Request Value

/-- The method `Request.AddHeader`. -/
def Request.AddHeader {Value : Type} (env : Env Value) (r : Request Value) (k v : GoString) :
    Request Value :=
  match r.req with
  | some req => { r with req := some { req with Header := Header.Add env req.Header k v } }
  | none => { r with headers := mapSet r.headers k v }

/-- The method `Request.AddQuery`. -/
def Request.AddQuery {Value : Type} (r : Request Value) (k v : GoString) : Request Value :=
  match r.req with
  | some req =>
    let q := req.URL.Query
    let q := q.Add k v
    { r with req := some { req with URL := { req.URL with RawQuery := q.Encode } } }
  | none => { r with query := mapSet r.query k v }

/-- The function `WithQuery`. -/
def WithQuery {Value : Type} (k v : GoString) : RequestOption Value :=
  fun r => r.AddQuery k v

/-- The function `WithRequestHeader`. -/
def WithRequestHeader {Value : Type} (env : Env Value) (k v : GoString) : RequestOption Value :=
  fun r => r.AddHeader env k v

/-- The function `WithBody`. -/
def WithBody {Value : Type} (body : Option Reader) : RequestOption Value :=
  fun r => { r with body := body }

/-- The function `WithJSON`. -/
def WithJSON {Value : Type} (env : Env Value) (v : Value) : RequestOption Value :=
  fun r =>
    match env.jsonMarshal v with
    | .error _ => { r with body := none }
    | .ok buf =>
      let r := r.AddHeader env headerContentType (str "application/json")
      let r := r.AddHeader env (str "Content-Length") (decimal buf.length)
      { r with body := some buf }

/-- The function `WithXML`. -/
def WithXML {Value : Type} (env : Env Value) (v : Value) : RequestOption Value :=
  fun r =>
    match env.xmlMarshal v with
    | .error _ => { r with body := none }
    | .ok buf =>
      let r := r.AddHeader env headerContentType (str "application/xml")
      let r := r.AddHeader env (str "Content-Length") (decimal buf.length)
      { r with body := some buf }

/-- The function `WithContentType`. -/
def WithContentType {Value : Type} (env : Env Value) (ct : GoString) : RequestOption Value :=
  fun r => r.AddHeader env headerContentType ct

/-- The method `Helper.NewRequest`.  The two `range` loops over a map run in the order of the
association list; Go leaves the order open. -/
def Helper.NewRequest {Value : Type} (env : Env Value) (h : Helper Value)
    (method path : GoString) (opts : List (RequestOption Value)) :
    Except GoError (Request Value) :=
  match (if h.baseURL ≠ [] then env.urlJoinPath h.baseURL path else .ok path) with
  | .error err => .error err
  | .ok path =>
    match env.urlParse path with
    | .error err => .error err
    | .ok parsedURL =>
      let r : Request Value :=
        { helper := h, req := none, method := method, url := parsedURL, body := none,
          headers := [], query := [] }
      -- save helper-headers to interim header-map
      let r := h.headers.foldl (fun r kv => r.AddHeader env kv.1 kv.2) r
      let r := opts.foldl (fun r opt => opt r) r
      match (if r.body ≠ none then httpNewRequest env method r.url.String r.body
             else httpNewRequest env method r.url.String none) with
      | .error err => .error err
      | .ok req =>
        -- apply interim headers to actual request
        let req := r.headers.foldl
          (fun req kv => { req with Header := Header.Add env req.Header kv.1 kv.2 }) req
        .ok { r with req := some req }

/-- The method `Helper.Get`. -/
def Helper.Get {Value : Type} (env : Env Value) (h : Helper Value) (path : GoString)
    (opts : List (RequestOption Value)) : Except GoError (Request Value) :=
  h.NewRequest env (str "GET") path opts

/-! ## `response.go` -/

/-- The type `Response`.  `resp` is the `*http.Response`; it is nil in a zero `Response`. -/
structure Response (Value : Type) where
  helper : Helper Value
  Header : Header
  resp : Option HTTPResponse
  respError : Option GoError
  body : GoString
  bodyError : Option GoError

/-- The method `Request.Do`.  The result is the pair `(*Response, error)`; `none` is a panic
(the request was never built, or the client broke its contract and returned nil twice). -/
def Request.Do {Value : Type} (env : Env Value) (req : Request Value) :
    Option (Option (Response Value) × Option GoError) :=
  match req.req with
  | none => none
  | some httpReq =>
    let intResp := (env.clientDo req.helper.client.Timeout httpReq).1
    let err := (env.clientDo req.helper.client.Timeout httpReq).2
    if err ≠ none then some (none, err)
    else
      match intResp with
      | none => none
      | some ir =>
        some (some { helper := req.helper, resp := some ir, respError := err,
                     Header := ir.Header, body := [], bodyError := none }, none)

/-- The method `Request.Request`: the URL of the request (a panic before the request is
built).  It stands after `Do` in this file, below the other methods of `Request`. -/
def Request.Request {Value : Type} (r : Request Value) : Option GoString :=
  r.req.map (fun req => req.URL.String)

/-- The method `Response.Close`, on a receiver that may be nil; its effect is on the body
stream.  It returns nothing and cannot fail. -/
def Response.Close {Value : Type} (r : Option (Response Value)) (s : Stream) : Stream :=
  match r with
  | none => s
  | some r =>
    match r.resp with
    | none => s
    | some resp => if resp.Body then s.Close else s

/-- The method `Response.Status`. -/
def Response.Status {Value : Type} (r : Response Value) : Option Int :=
  r.resp.map (fun resp => resp.StatusCode)

/-- The method `Response.Error`. -/
def Response.Error {Value : Type} (r : Response Value) : Option GoString :=
  match r.respError with
  | some e => some e.Error
  | none => r.resp.map (fun resp => resp.Status)

/-- The method `Response.IsOK`; the `||` chain stops at the first true operand, so `resp` is
only looked at when no transport error is recorded. -/
def Response.IsOK {Value : Type} (r : Response Value) : Option Bool :=
  if r.respError ≠ none then some true
  else
    match r.resp with
    | none => none
    | some resp =>
      some (resp.StatusCode = 200 || resp.StatusCode = 204 || resp.StatusCode = 201)

/-- The method `Response.getBody`: the result pair, the response and the body stream after
the call. -/
def Response.getBody {Value : Type} (r : Response Value) (s : Stream) :
    Option ((GoString × Option GoError) × Response Value × Stream) :=
  match r.resp with
  | none => none
  | some resp =>
    if resp.Body then
      let r1 : Response Value :=
        { r with body := (ioReadAll s).1.1, bodyError := (ioReadAll s).1.2,
                 resp := some { resp with Body := false } }
      some ((r1.body, r1.bodyError), r1, (ioReadAll s).2)
    else some ((r.body, r.bodyError), r, s)

/-- The method `Response.BodyBytes`. -/
def Response.BodyBytes {Value : Type} (r : Response Value) (s : Stream) :
    Option ((GoString × Option GoError) × Response Value × Stream) :=
  r.getBody s

/-- The constant `ctJSON`. -/
def ctJSON : GoString := str "application/json"

/-- The constant `ctXML`. -/
def ctXML : GoString := str "application/xml"

/-- The method `Response.ParseContentType`. -/
def Response.ParseContentType {Value : Type} (env : Env Value) (r : Response Value) :
    GoString :=
  env.parseMediaType (Header.Get env r.Header (str "Content-Type"))

/-- The method `Response.ParseJSON`: the target after the call and the error, then the
response and the body stream after the call. -/
def Response.ParseJSON {Value : Type} (env : Env Value) (r : Response Value) (v : Value)
    (s : Stream) : Option ((Value × Option GoError) × Response Value × Stream) :=
  match r.getBody s with
  | none => none
  | some ((data, err), r1, s1) =>
    if err ≠ none then some ((v, err), r1, s1)
    else some (env.jsonUnmarshal data v, r1, s1)

/-- The method `Response.ParseXML`. -/
def Response.ParseXML {Value : Type} (env : Env Value) (r : Response Value) (v : Value)
    (s : Stream) : Option ((Value × Option GoError) × Response Value × Stream) :=
  match r.getBody s with
  | none => none
  | some ((data, err), r1, s1) =>
    if err ≠ none then some ((v, err), r1, s1)
    else some (env.xmlUnmarshal data v, r1, s1)

/-- The method `Response.Parse`. -/
def Response.Parse {Value : Type} (env : Env Value) (r : Response Value) (v : Value)
    (s : Stream) : Option ((Value × Option GoError) × Response Value × Stream) :=
  let ct := r.ParseContentType env
  match mapGet r.helper.parsers ct with
  | some (some fn) => some (fn v, r, s)
  | _ =>
    if ct = ctJSON then r.ParseJSON env v s
    else if ct = ctXML then r.ParseXML env v s
    else some ((v, some (.unknownCT ct)), r, s)

/-! ## Calls of the package's option constructors

An option is a Go closure; to speak about "the last `WithHeader` in the list" the lists of
options below are given as lists of constructor calls, each standing for the closure that the
constructor returns. -/

/-- A call of one of the five constructors of a `HelperOption`. -/
inductive HelperOptionCall (Value : Type) where
  | withBaseURL (base : GoString)
  | withTimeout (d : Int)
  | withHeader (k v : GoString)
  | withParser (mimeType : GoString) (fn : Parser Value)
  | withBasicAuth (username password : GoString)

/-- The closure returned by a constructor call. -/
def HelperOptionCall.option {Value : Type} : HelperOptionCall Value → HelperOption Value
  | .withBaseURL base => WithBaseURL base
  | .withTimeout d => WithTimeout d
  | .withHeader k v => WithHeader k v
  | .withParser mimeType fn => WithParser mimeType fn
  | .withBasicAuth username password => WithBasicAuth username password

/-- The base URL a call sets, if it is a `WithBaseURL`. -/
def HelperOptionCall.baseURL {Value : Type} : HelperOptionCall Value → Option GoString
  | .withBaseURL base => some base
  | _ => none

/-- The timeout a call sets, if it is a `WithTimeout`. -/
def HelperOptionCall.timeout {Value : Type} : HelperOptionCall Value → Option Int
  | .withTimeout d => some d
  | _ => none

/-- The value a call gives to the default header `k`: that of a `WithHeader` for `k`, and for
`Authorization` also the credential of a `WithBasicAuth`. -/
def HelperOptionCall.header {Value : Type} (k : GoString) :
    HelperOptionCall Value → Option GoString
  | .withHeader k' v => if k' = k then some v else none
  | .withBasicAuth username password =>
    if str "Authorization" = k then
      some (str "Basic " ++ base64Encode (username ++ str ":" ++ password))
    else none
  | _ => none

/-- The parser a call registers for the MIME type `m`, if it is a `WithParser` for `m`. -/
def HelperOptionCall.parser {Value : Type} (m : GoString) :
    HelperOptionCall Value → Option (Parser Value)
  | .withParser mimeType fn => if mimeType = m then some fn else none
  | _ => none

/-- What the last call that says anything says. -/
def lastSet {α β : Type} (f : α → Option β) (calls : List α) : Option β :=
  (calls.filterMap f).getLast?

/-- A call of one of the six constructors of a `RequestOption`. -/
inductive RequestOptionCall (Value : Type) where
  | withQuery (k v : GoString)
  | withRequestHeader (k v : GoString)
  | withBody (body : Option Reader)
  | withJSON (v : Value)
  | withXML (v : Value)
  | withContentType (ct : GoString)

/-- The closure returned by a constructor call. -/
def RequestOptionCall.option {Value : Type} (env : Env Value) :
    RequestOptionCall Value → RequestOption Value
  | .withQuery k v => WithQuery k v
  | .withRequestHeader k v => WithRequestHeader env k v
  | .withBody body => WithBody body
  | .withJSON v => WithJSON env v
  | .withXML v => WithXML env v
  | .withContentType ct => WithContentType env ct

/-- A call that sets neither a body nor a header named exactly `Content-Type` or
`Content-Length`: a `WithQuery`, or a `WithRequestHeader` for another name. -/
def RequestOptionCall.leavesBody {Value : Type} : RequestOptionCall Value → Bool
  | .withQuery _ _ => true
  | .withRequestHeader k _ => k ≠ headerContentType ∧ k ≠ str "Content-Length"
  | _ => false

/-! ## Query strings, spelled out -/

/-- The pairs of a `url.Values`, key by key in the order of the map, the values of one key in
their order. -/
def Values.pairs (v : Values) : List (GoString × GoString) :=
  v.flatMap (fun e => e.2.map (fun x => (e.1, x)))

/-- One pair in URL-encoded form: `key=value`, both escaped. -/
def encodePair (p : GoString × GoString) : GoString :=
  QueryEscape p.1 ++ ch '=' :: QueryEscape p.2

/-- The pieces joined by `&`. -/
def joinAmp : List GoString → GoString
  | [] => []
  | [x] => x
  | x :: y :: rest => x ++ ch '&' :: joinAmp (y :: rest)

/-- The query string of a list of pairs: the encoded pairs, in the order given, joined
by `&`. -/
def encodePairs (ps : List (GoString × GoString)) : GoString :=
  joinAmp (ps.map encodePair)

/-- The entries of a `url.Values` in ascending order of the keys, as `Values.Encode` visits
them. -/
def Values.sorted (v : Values) : Values :=
  (sortKeys (mapKeys v)).map (fun k => (k, (mapGet v k).getD []))

/-- A sequence of calls `AddQuery(k, v)`, one after the other. -/
def AddQueries {Value : Type} (r : Request Value) (kvs : List (GoString × GoString)) :
    Request Value :=
  kvs.foldl (fun r kv => r.AddQuery kv.1 kv.2) r

/-! ## A small instance of the standard library

The theorems below hold for every `Env`.  To run the package on the inputs of the test file
(`http://localhost`, `/test`) one instance is fixed here.  It agrees with Go on URLs made of a
scheme, a host and a clean path, with an optional query and fragment, none of which needs
escaping; on canonical header names; and on media types without parameters or with parameters
after a `;`.  Its values behind `interface{}` are `some b` for a value that serialises to the
bytes `b`, and `none` for a value that does not serialise (a channel or a function, say). -/

/-- URL parsing for the instance: the fragment is what follows the first `#`, the query what
follows the first `?` in front of it; a lone `?` at the end sets `ForceQuery`. -/
def exampleParse (rawURL : GoString) : URL :=
  let u := (cut (ch '#') rawURL).1
  if u.getLast? = some (ch '?') ∧ u.count (ch '?') = 1 then
    { hier := u.dropLast, RawQuery := [], ForceQuery := true,
      Fragment := (cut (ch '#') rawURL).2.1 }
  else
    { hier := (cut (ch '?') u).1, RawQuery := (cut (ch '?') u).2.1, ForceQuery := false,
      Fragment := (cut (ch '#') rawURL).2.1 }

/-- The instance. -/
def exampleEnv : Env (Option GoString) where
  urlJoinPath := fun base elem => .ok (base ++ elem)
  urlParse := fun rawURL => .ok (exampleParse rawURL)
  validMethod := fun method => method ≠ []
  removeEmptyPort := fun u => u
  canonicalMIMEHeaderKey := fun k => k
  jsonMarshal := fun v =>
    match v with
    | some b => .ok b
    | none => .error (.lib (str "json: unsupported type"))
  xmlMarshal := fun v =>
    match v with
    | some b => .ok b
    | none => .error (.lib (str "xml: unsupported type"))
  jsonUnmarshal := fun data _ => (some data, none)
  xmlUnmarshal := fun data _ => (some data, none)
  parseMediaType := fun ct => (cut (ch ';') ct).1
  clientDo := fun _ req =>
    (some { Status := str "200 OK", StatusCode := 200, Header := req.Header, Body := true }, none)

/-- A response as `Do` makes it, with the given status code, status line and `Content-Type`,
its body still unread. -/
def exampleResponse (code : Int) (status ct : GoString) (h : Helper (Option GoString)) :
    Response (Option GoString) :=
  { helper := h, Header := [(str "Content-Type", [ct])],
    resp := some { Status := status, StatusCode := code,
                   Header := [(str "Content-Type", [ct])], Body := true },
    respError := none, body := [], bodyError := none }

/-- A body stream that has not been touched: five bytes to deliver, then a clean end. -/
def exampleStream : Stream :=
  { pending := str "hello", failure := none, readCalls := 0, closeCalls := 0 }

/-- A `url.Values` as `Add` and `ParseQuery` make them: no key twice (it is a map) and no key
with an empty list of values. -/
def Values.WF (v : Values) : Prop := (mapKeys v).Nodup ∧ ∀ e ∈ v, e.2 ≠ []

/-- One turn of the inner loop of `Values.Encode`, for the pair of a key and one of its
values. -/
def encodeStep (buf : GoString) (p : GoString × GoString) : GoString :=
  (if buf.length > 0 then buf ++ [ch '&'] else buf) ++ QueryEscape p.1 ++ [ch '=']
    ++ QueryEscape p.2

/-- The request that `New(WithBaseURL("http://localhost")).Get("/test")` returns in the
instance. -/
def exampleRequest : Request (Option GoString) :=
  { helper := New [WithBaseURL (str "http://localhost")],
    req := some { Method := str "GET", URL := exampleParse (str "http://localhost/test"),
                  Header := [], Body := none },
    method := str "GET", url := exampleParse (str "http://localhost/test"), body := none,
    headers := [], query := [] }

/-! ## Responses: `IsOK`, `Do`, the body -/

/-- C3: on a response that records a transport error or has an HTTP response behind it,
`IsOK()` returns a boolean, and it is true exactly when a transport error is recorded or the
status code is 200, 201 or 204. -/
theorem IsOK_iff_error_or_status {Value : Type} (r : Response Value)
    (h : r.respError ≠ none ∨ r.resp ≠ none) :
    ∃ b, r.IsOK = some b ∧
      (b = true ↔ (r.respError ≠ none ∨ r.Status = some 200 ∨ r.Status = some 201 ∨
        r.Status = some 204)) := by
  unfold Response.IsOK Response.Status
  by_cases he : r.respError = none
  · rcases h with h | h
    · exact absurd he h
    · cases hr : r.resp with
      | none => exact absurd hr h
      | some resp =>
        rw [if_neg (by simp [he])]
        refine ⟨_, rfl, ?_⟩
        simp [he]
        tauto
  · exact ⟨true, by simp [he], by simp [he]⟩

theorem IsOK_iff_error_or_status_witness :
    ∃ b, (exampleResponse 404 (str "404 Not Found") (str "text/plain") (New [])).IsOK = some b ∧
      (b = true ↔
        ((exampleResponse 404 (str "404 Not Found") (str "text/plain") (New [])).respError ≠ none ∨
         (exampleResponse 404 (str "404 Not Found") (str "text/plain") (New [])).Status = some 200 ∨
         (exampleResponse 404 (str "404 Not Found") (str "text/plain") (New [])).Status = some 201 ∨
         (exampleResponse 404 (str "404 Not Found") (str "text/plain") (New [])).Status = some 204)) :=
  IsOK_iff_error_or_status _ (Or.inr (by simp [exampleResponse]))

/-- C10: when the request is built and the client returns a response or an error, `Do` returns;
its result is either no response together with the client's error, or a response together with
no error.  In the second case the response records no transport error, `IsOK()` is true exactly
for the status codes 200, 201 and 204, and `Error()` is the status line. -/
theorem Do_response_or_error {Value : Type} (env : Env Value) (req : Request Value)
    (httpReq : HTTPRequest) (hreq : req.req = some httpReq)
    (hclient : (env.clientDo req.helper.client.Timeout httpReq).1 ≠ none ∨
               (env.clientDo req.helper.client.Timeout httpReq).2 ≠ none) :
    (∃ err, req.Do env = some (none, some err) ∧
        (env.clientDo req.helper.client.Timeout httpReq).2 = some err) ∨
    (∃ r resp, req.Do env = some (some r, none) ∧
        (env.clientDo req.helper.client.Timeout httpReq) = (some resp, none) ∧
        r.resp = some resp ∧ r.respError = none ∧
        (∃ b, r.IsOK = some b ∧
          (b = true ↔ resp.StatusCode = 200 ∨ resp.StatusCode = 201 ∨ resp.StatusCode = 204)) ∧
        r.Error = some resp.Status) := by
  unfold Request.Do
  rw [hreq]
  cases herr : (env.clientDo req.helper.client.Timeout httpReq).2 with
  | some err => left; exact ⟨err, by simp [herr], rfl⟩
  | none =>
    right
    rcases hclient with hc | hc
    · cases hresp : (env.clientDo req.helper.client.Timeout httpReq).1 with
      | none => exact absurd hresp hc
      | some resp =>
        refine ⟨_, resp, by simp [herr, hresp]; rfl, ?_, rfl, rfl, ?_, ?_⟩
        · exact Prod.ext hresp herr
        · refine ⟨_, by simp [Response.IsOK]; rfl, ?_⟩
          simp
          tauto
        · simp [Response.Error]
    · exact absurd herr hc

theorem Do_response_or_error_witness :
    (∃ err, exampleRequest.Do exampleEnv = some (none, some err) ∧
        (exampleEnv.clientDo exampleRequest.helper.client.Timeout
          { Method := str "GET", URL := exampleParse (str "http://localhost/test"),
            Header := [], Body := none }).2 = some err) ∨
    (∃ r resp, exampleRequest.Do exampleEnv = some (some r, none) ∧
        (exampleEnv.clientDo exampleRequest.helper.client.Timeout
          { Method := str "GET", URL := exampleParse (str "http://localhost/test"),
            Header := [], Body := none }) = (some resp, none) ∧
        r.resp = some resp ∧ r.respError = none ∧
        (∃ b, r.IsOK = some b ∧
          (b = true ↔ resp.StatusCode = 200 ∨ resp.StatusCode = 201 ∨ resp.StatusCode = 204)) ∧
        r.Error = some resp.Status) :=
  Do_response_or_error exampleEnv exampleRequest
    { Method := str "GET", URL := exampleParse (str "http://localhost/test"),
      Header := [], Body := none }
    rfl (Or.inl (by simp [exampleEnv]))

/-- C4: on a response whose body is still unread, `BodyBytes()` returns what the stream
delivers and reads the stream once; a second `BodyBytes()` returns the same pair, and it and
every later `BodyBytes`, `ParseJSON` or `ParseXML` leave the response and the stream (whatever
state it is in) as they are and work on the cached bytes. -/
theorem BodyBytes_reads_once {Value : Type} (r : Response Value) (resp : HTTPResponse)
    (s : Stream) (hresp : r.resp = some resp) (hbody : resp.Body = true) :
    ∃ r1 s1, r.BodyBytes s = some ((s.pending, s.failure), r1, s1) ∧
      s1.readCalls = s.readCalls + 1 ∧ s1.closeCalls = s.closeCalls ∧
      r1.BodyBytes s1 = some ((s.pending, s.failure), r1, s1) ∧
      (∀ s2, r1.BodyBytes s2 = some ((s.pending, s.failure), r1, s2)) ∧
      (∀ (env : Env Value) v s2, r1.ParseJSON env v s2 =
        some (if s.failure ≠ none then (v, s.failure) else env.jsonUnmarshal s.pending v,
              r1, s2)) ∧
      (∀ (env : Env Value) v s2, r1.ParseXML env v s2 =
        some (if s.failure ≠ none then (v, s.failure) else env.xmlUnmarshal s.pending v,
              r1, s2)) := by
  refine ⟨{ r with body := s.pending, bodyError := s.failure,
                   resp := some { resp with Body := false } }, (ioReadAll s).2, ?_, rfl, rfl,
          rfl, fun _ => rfl, ?_, ?_⟩
  · simp [Response.BodyBytes, Response.getBody, hresp, hbody, ioReadAll]
  · intro env v s2
    by_cases hf : s.failure = none <;> simp [Response.ParseJSON, Response.getBody, hf]
  · intro env v s2
    by_cases hf : s.failure = none <;> simp [Response.ParseXML, Response.getBody, hf]

theorem BodyBytes_reads_once_witness :
    ∃ r1 s1, (exampleResponse 200 (str "200 OK") (str "text/plain") (New [])).BodyBytes
        exampleStream = some ((exampleStream.pending, exampleStream.failure), r1, s1) ∧
      s1.readCalls = exampleStream.readCalls + 1 ∧ s1.closeCalls = exampleStream.closeCalls ∧
      r1.BodyBytes s1 = some ((exampleStream.pending, exampleStream.failure), r1, s1) ∧
      (∀ s2, r1.BodyBytes s2 = some ((exampleStream.pending, exampleStream.failure), r1, s2)) ∧
      (∀ (env : Env (Option GoString)) v s2, r1.ParseJSON env v s2 =
        some (if exampleStream.failure ≠ none then (v, exampleStream.failure)
              else env.jsonUnmarshal exampleStream.pending v, r1, s2)) ∧
      (∀ (env : Env (Option GoString)) v s2, r1.ParseXML env v s2 =
        some (if exampleStream.failure ≠ none then (v, exampleStream.failure)
              else env.xmlUnmarshal exampleStream.pending v, r1, s2)) :=
  BodyBytes_reads_once (exampleResponse 200 (str "200 OK") (str "text/plain") (New []))
    { Status := str "200 OK", StatusCode := 200,
      Header := [(str "Content-Type", [str "text/plain"])], Body := true }
    exampleStream rfl rfl

/-- C8, as the code behaves: `Close()` on a nil response or on one without an HTTP response
leaves the stream alone, and `Close()` right after `Do` closes the stream once; but once
`BodyBytes()` has run (it sets the field `Body` to nil), `Close()` no longer closes the stream.
On the example, the stream has been closed zero times after `BodyBytes(); Close()`. -/
theorem Close_after_BodyBytes_leaves_stream_open :
    (∀ (Value : Type) (s : Stream), Response.Close (none : Option (Response Value)) s = s) ∧
    (∀ (Value : Type) (r : Response Value) (s : Stream),
      Response.Close (some { r with resp := none }) s = s) ∧
    (∀ (Value : Type) (r : Response Value) (resp : HTTPResponse) (s : Stream),
      (Response.Close (some { r with resp := some { resp with Body := true } }) s).closeCalls
        = s.closeCalls + 1) ∧
    (∀ (Value : Type) (r : Response Value) (resp : HTTPResponse) (s : Stream),
      (Response.BodyBytes { r with resp := some { resp with Body := true } } s).map
          (fun out => (Response.Close (some out.2.1) out.2.2).closeCalls)
        = some s.closeCalls) ∧
    ((exampleResponse 200 (str "200 OK") (str "text/plain") (New [])).BodyBytes exampleStream).map
        (fun out => (Response.Close (some out.2.1) out.2.2).closeCalls) = some 0 := by
  refine ⟨fun _ _ => rfl, fun _ _ _ => rfl, fun _ _ _ _ => rfl, fun _ _ _ _ => rfl, rfl⟩

/-! ## `Parse`: dispatch on the media type -/

/-- C5, the claim as stated fails: a nil function registered under `text/plain` is a parser
registered under exactly the media type of the response, yet `Parse` does not return the result
of calling it (that call would panic); it returns the unknown-content-type error. -/
theorem Parse_registered_nil_counterexample :
    mapGet (exampleResponse 200 (str "200 OK") (str "text/plain")
        (New [WithParser (str "text/plain") none])).helper.parsers
      ((exampleResponse 200 (str "200 OK") (str "text/plain")
        (New [WithParser (str "text/plain") none])).ParseContentType exampleEnv) = some none ∧
    ((exampleResponse 200 (str "200 OK") (str "text/plain")
        (New [WithParser (str "text/plain") none])).Parse exampleEnv none exampleStream).map
      (fun out => (out.1, out.2.2))
      = some ((none, some (.unknownCT (str "text/plain"))), exampleStream) :=
  ⟨rfl, by decide⟩

/-- C5, amended: with `ct` the media type of the response, `Parse` returns the result of the
function registered under exactly `ct` when that function is not nil; when nothing or a nil
function is registered under `ct`, it returns `ParseJSON(v)` for `application/json`,
`ParseXML(v)` for `application/xml`, and otherwise the unknown-content-type error carrying
`ct`, with the target, the response and the body stream untouched. -/
theorem Parse_dispatch {Value : Type} (env : Env Value) (r : Response Value) (v : Value)
    (s : Stream) :
    (∀ fn, mapGet r.helper.parsers (r.ParseContentType env) = some (some fn) →
      r.Parse env v s = some (fn v, r, s)) ∧
    (mapGet r.helper.parsers (r.ParseContentType env) = none ∨
      mapGet r.helper.parsers (r.ParseContentType env) = some none →
      (r.ParseContentType env = str "application/json" → r.Parse env v s = r.ParseJSON env v s) ∧
      (r.ParseContentType env = str "application/xml" → r.Parse env v s = r.ParseXML env v s) ∧
      (r.ParseContentType env ≠ str "application/json" →
        r.ParseContentType env ≠ str "application/xml" →
        r.Parse env v s = some ((v, some (.unknownCT (r.ParseContentType env))), r, s))) := by
  constructor
  · intro fn h
    simp [Response.Parse, h]
  · intro h
    have hx : str "application/xml" ≠ ctJSON := by decide
    refine ⟨fun hj => ?_, fun hx' => ?_, fun hj hx' => ?_⟩ <;>
      rcases h with h | h <;> simp_all [Response.Parse, ctJSON, ctXML]

theorem Parse_dispatch_witness :
    (exampleResponse 200 (str "200 OK") (str "text/plain") (New [])).Parse exampleEnv none
        exampleStream
      = some ((none, some (.unknownCT (str "text/plain"))),
          exampleResponse 200 (str "200 OK") (str "text/plain") (New []), exampleStream) := by
  have h := (Parse_dispatch exampleEnv
      (exampleResponse 200 (str "200 OK") (str "text/plain") (New [])) none exampleStream).2
    (Or.inl rfl)
  exact h.2.2 (by decide) (by decide)

/-! ## `New`: the options in order -/

theorem lastSet_cons {α β : Type} (f : α → Option β) (c : α) (cs : List α) :
    lastSet f (c :: cs) = (lastSet f cs).orElse (fun _ => f c) := by
  unfold lastSet
  cases hc : f c with
  | none => simp [List.filterMap_cons, hc]
  | some b =>
    simp only [List.filterMap_cons, hc]
    cases hl : List.filterMap f cs with
    | nil => simp
    | cons x xs =>
      rw [List.getLast?_cons_cons, List.getLast?_eq_getLast _ (List.cons_ne_nil x xs)]
      rfl

theorem mapGet_mapSet {β : Type} (m : GoMap β) (k k' : GoString) (x : β) :
    mapGet (mapSet m k x) k' = if k = k' then some x else mapGet m k' := by
  induction m with
  | nil => simp [mapSet, mapGet]
  | cons e m ih =>
    obtain ⟨ke, y⟩ := e
    by_cases h1 : ke = k
    · subst h1
      by_cases h2 : ke = k' <;> simp [mapSet, mapGet, h2]
    · by_cases h2 : k = k'
      · subst h2
        simp [mapSet, mapGet, h1, ih]
      · simp [mapSet, mapGet, h1, h2, ih]

theorem New_loop_eq_foldl {Value : Type} (opts : List (HelperOption Value)) (h : Helper Value) :
    New.loop opts h = opts.foldl (fun h opt => opt h) h := by
  induction opts generalizing h with
  | nil => rfl
  | cons o opts ih => simp [New.loop, ih]

theorem New_loop_fields {Value : Type} (calls : List (HelperOptionCall Value))
    (h : Helper Value) :
    (New.loop (calls.map HelperOptionCall.option) h).baseURL
        = (lastSet HelperOptionCall.baseURL calls).getD h.baseURL ∧
    (New.loop (calls.map HelperOptionCall.option) h).client.Timeout
        = (lastSet HelperOptionCall.timeout calls).getD h.client.Timeout ∧
    (∀ k, mapGet (New.loop (calls.map HelperOptionCall.option) h).headers k
        = (lastSet (HelperOptionCall.header k) calls).orElse (fun _ => mapGet h.headers k)) ∧
    (∀ m, mapGet (New.loop (calls.map HelperOptionCall.option) h).parsers m
        = (lastSet (HelperOptionCall.parser m) calls).orElse (fun _ => mapGet h.parsers m)) := by
  induction calls generalizing h with
  | nil => simp [New.loop, lastSet]
  | cons c calls ih =>
    simp only [List.map_cons, New.loop, lastSet_cons]
    obtain ⟨h1, h2, h3, h4⟩ := ih (c.option h)
    refine ⟨?_, ?_, fun k => ?_, fun m => ?_⟩
    · rw [h1]
      cases lastSet HelperOptionCall.baseURL calls <;> cases c <;>
        simp [HelperOptionCall.option, HelperOptionCall.baseURL, WithBaseURL, WithTimeout,
          WithHeader, WithParser, WithBasicAuth]
    · rw [h2]
      cases lastSet HelperOptionCall.timeout calls <;> cases c <;>
        simp [HelperOptionCall.option, HelperOptionCall.timeout, WithBaseURL, WithTimeout,
          WithHeader, WithParser, WithBasicAuth]
    · rw [h3]
      cases lastSet (HelperOptionCall.header k) calls <;> cases c <;>
        simp [HelperOptionCall.option, HelperOptionCall.header, WithBaseURL, WithTimeout,
          WithHeader, WithParser, WithBasicAuth, mapGet_mapSet, basicAuth] <;>
        split <;> simp
    · rw [h4]
      cases lastSet (HelperOptionCall.parser m) calls <;> cases c <;>
        simp [HelperOptionCall.option, HelperOptionCall.parser, WithBaseURL, WithTimeout,
          WithHeader, WithParser, WithBasicAuth, mapGet_mapSet]
      split <;> simp

/-- C9: `New(opts...)` is the left-to-right fold of the options over the helper with empty base
URL, no headers, no parsers and a timeout of 15 seconds.  Its base URL and timeout are those of
the last `WithBaseURL` and `WithTimeout` (the empty string and 15 seconds when there is none);
the value of each header name and the parser of each MIME type are those of the last
`WithHeader` and `WithParser` for that key, absent when there is none; and `WithBasicAuth(u, p)`
is `WithHeader("Authorization", "Basic " + base64(u + ":" + p))`. -/
theorem New_last_option_wins {Value : Type} (calls : List (HelperOptionCall Value)) :
    New (calls.map HelperOptionCall.option)
        = (calls.map HelperOptionCall.option).foldl (fun h opt => opt h)
            { baseURL := [], headers := [], client := { Timeout := 15 * 1000000000 },
              parsers := [] } ∧
    (New (calls.map HelperOptionCall.option)).baseURL
        = (lastSet HelperOptionCall.baseURL calls).getD [] ∧
    (New (calls.map HelperOptionCall.option)).client.Timeout
        = (lastSet HelperOptionCall.timeout calls).getD (15 * 1000000000) ∧
    (∀ k, mapGet (New (calls.map HelperOptionCall.option)).headers k
        = lastSet (HelperOptionCall.header k) calls) ∧
    (∀ m, mapGet (New (calls.map HelperOptionCall.option)).parsers m
        = lastSet (HelperOptionCall.parser m) calls) ∧
    (∀ u p, (WithBasicAuth u p : HelperOption Value)
        = WithHeader (str "Authorization") (str "Basic " ++ base64Encode (u ++ str ":" ++ p))) := by
  obtain ⟨h1, h2, h3, h4⟩ := New_loop_fields calls
    { baseURL := [], headers := [], client := { Timeout := defaultTimeout }, parsers := [] }
  refine ⟨?_, h1, h2, fun k => ?_, fun m => ?_, fun _ _ => rfl⟩
  · exact New_loop_eq_foldl _ _
  · rw [New, h3 k]
    cases lastSet (HelperOptionCall.header k) calls <;> simp [mapGet]
  · rw [New, h4 m]
    cases lastSet (HelperOptionCall.parser m) calls <;> simp [mapGet]

/-! ## Building a request -/

theorem AddHeader_of_req_none {Value : Type} (env : Env Value) (r : Request Value)
    (k v : GoString) (h : r.req = none) :
    r.AddHeader env k v = { r with headers := mapSet r.headers k v } := by
  simp [Request.AddHeader, h]

theorem AddQuery_of_req_none {Value : Type} (r : Request Value) (k v : GoString)
    (h : r.req = none) : r.AddQuery k v = { r with query := mapSet r.query k v } := by
  simp [Request.AddQuery, h]

theorem foldl_AddHeader {Value : Type} (env : Env Value) (hs : GoMap GoString)
    (r : Request Value) (h : r.req = none) :
    hs.foldl (fun r kv => r.AddHeader env kv.1 kv.2) r
      = { r with headers := hs.foldl (fun m kv => mapSet m kv.1 kv.2) r.headers } := by
  induction hs generalizing r with
  | nil => rfl
  | cons kv hs ih =>
    simp only [List.foldl_cons]
    rw [AddHeader_of_req_none env r _ _ h]
    exact ih _ h

theorem foldl_WithQuery {Value : Type} (kvs : List (GoString × GoString)) (r : Request Value)
    (h : r.req = none) :
    (kvs.map (fun kv => (WithQuery kv.1 kv.2 : RequestOption Value))).foldl
        (fun r opt => opt r) r
      = { r with query := kvs.foldl (fun q kv => mapSet q kv.1 kv.2) r.query } := by
  induction kvs generalizing r with
  | nil => rfl
  | cons kv kvs ih =>
    simp only [List.map_cons, List.foldl_cons, WithQuery]
    rw [AddQuery_of_req_none r _ _ h]
    exact ih _ h

/-- C1, as the code behaves: query parameters given to `NewRequest` as `WithQuery` options end
up in the interim map `query` only, which `NewRequest` never reads; the request that is built,
and with it the URL returned by `Request()`, is the one built without them.  On the input of
the package's test `TestWithQuery` the URL is `http://localhost/test`, not
`http://localhost/test?a=value`. -/
theorem NewRequest_ignores_WithQuery :
    (∀ (Value : Type) (env : Env Value) (h : Helper Value) (method path : GoString)
        (kvs : List (GoString × GoString)),
      (h.NewRequest env method path (kvs.map (fun kv => WithQuery kv.1 kv.2))).map
          (fun r => r.req)
        = (h.NewRequest env method path []).map (fun r => r.req)) ∧
    ((New [WithBaseURL (str "http://localhost")]).Get exampleEnv (str "/test")
        [WithQuery (str "a") (str "value")]).toOption.bind Request.Request
      = some (str "http://localhost/test") ∧
    str "http://localhost/test" ≠ str "http://localhost/test?a=value" := by
  refine ⟨?_, by decide, by decide⟩
  intro Value env h method path kvs
  unfold Helper.NewRequest
  cases (if h.baseURL ≠ [] then env.urlJoinPath h.baseURL path else Except.ok path) with
  | error e => rfl
  | ok p =>
    dsimp only
    cases env.urlParse p with
    | error e => rfl
    | ok u =>
      dsimp only [List.foldl_nil]
      rw [foldl_AddHeader env h.headers _ rfl, foldl_WithQuery kvs _ rfl]
      dsimp only
      cases (if (none : Option Reader) ≠ none then httpNewRequest env method u.String none
          else httpNewRequest env method u.String none) with
      | error e => rfl
      | ok q => rfl

theorem mem_mapKeys_mapSet {β : Type} (m : GoMap β) (k k' : GoString) (x : β) :
    k' ∈ mapKeys (mapSet m k x) ↔ k' = k ∨ k' ∈ mapKeys m := by
  induction m with
  | nil => simp [mapSet, mapKeys]
  | cons e m ih =>
    obtain ⟨ke, y⟩ := e
    by_cases h1 : ke = k
    · subst h1
      simp [mapSet, mapKeys]
    · simp only [mapKeys] at ih
      simp [mapSet, mapKeys, h1, ih]
      tauto

theorem nodup_mapKeys_mapSet {β : Type} (m : GoMap β) (k : GoString) (x : β)
    (h : (mapKeys m).Nodup) : (mapKeys (mapSet m k x)).Nodup := by
  induction m with
  | nil => simp [mapSet, mapKeys]
  | cons e m ih =>
    obtain ⟨ke, y⟩ := e
    have h' : ke ∉ mapKeys m ∧ (mapKeys m).Nodup := by
      simpa [mapKeys] using h
    by_cases h1 : ke = k
    · subst h1
      simpa [mapSet, mapKeys] using h
    · have hmem := mem_mapKeys_mapSet m k ke x
      have ih' := ih h'.2
      simp only [mapKeys] at hmem ih' h'
      simp only [mapSet, h1, if_false, mapKeys, List.map_cons, List.nodup_cons]
      exact ⟨by rw [hmem]; tauto, ih'⟩

theorem mapGet_eq_none_iff {β : Type} (m : GoMap β) (k : GoString) :
    mapGet m k = none ↔ k ∉ mapKeys m := by
  induction m with
  | nil => simp [mapGet, mapKeys]
  | cons e m ih =>
    obtain ⟨ke, y⟩ := e
    simp only [mapKeys] at ih
    by_cases h1 : ke = k
    · simp [mapGet, mapKeys, h1]
    · have h2 : ¬ k = ke := fun e => h1 e.symm
      simp only [mapGet, h1, if_false, mapKeys, List.map_cons, List.mem_cons, h2, false_or]
      exact ih

theorem mem_of_mapGet {β : Type} (m : GoMap β) (k : GoString) (x : β)
    (h : mapGet m k = some x) : (k, x) ∈ m := by
  induction m with
  | nil => simp [mapGet] at h
  | cons e m ih =>
    obtain ⟨ke, y⟩ := e
    by_cases h1 : ke = k
    · simp [mapGet, h1] at h
      simp [h1, h]
    · simp [mapGet, h1] at h
      exact List.mem_cons_of_mem _ (ih h)

theorem mapGet_of_mem {β : Type} (m : GoMap β) (k : GoString) (x : β)
    (hn : (mapKeys m).Nodup) (h : (k, x) ∈ m) : mapGet m k = some x := by
  induction m with
  | nil => simp at h
  | cons e m ih =>
    obtain ⟨ke, y⟩ := e
    have h' : ke ∉ mapKeys m ∧ (mapKeys m).Nodup := by
      simpa [mapKeys] using hn
    rcases List.mem_cons.1 h with h | h
    · cases h
      simp [mapGet]
    · have hk : k ∈ mapKeys m := List.mem_map.2 ⟨(k, x), h, rfl⟩
      have h1 : ke ≠ k := fun e => h'.1 (e ▸ hk)
      simp [mapGet, h1, ih h'.2 h]

theorem filter_key_of_mapGet {β : Type} (m : GoMap β) (k : GoString) (x : β)
    (hn : (mapKeys m).Nodup) (h : mapGet m k = some x) :
    m.filter (fun kv => decide (kv.1 = k)) = [(k, x)] := by
  induction m with
  | nil => simp [mapGet] at h
  | cons e m ih =>
    obtain ⟨ke, y⟩ := e
    have h' : ke ∉ mapKeys m ∧ (mapKeys m).Nodup := by
      simpa [mapKeys] using hn
    by_cases h1 : ke = k
    · subst h1
      simp [mapGet] at h
      subst h
      simp only [List.filter_cons, decide_True, if_true, List.cons.injEq, true_and]
      rw [List.filter_eq_nil_iff]
      intro a ha
      have : a.1 ∈ mapKeys m := List.mem_map.2 ⟨a, ha, rfl⟩
      simp only [decide_eq_true_eq]
      exact fun e => h'.1 (e ▸ this)
    · simp [mapGet, h1] at h
      simp [List.filter_cons, h1, ih h'.2 h]

theorem mapGet_foldl_Add (kvs : List (GoString × GoString)) (m : Values) (k : GoString) :
    mapGet (kvs.foldl (fun m kv => Values.Add m kv.1 kv.2) m) k
      = if kvs.filter (fun kv => decide (kv.1 = k)) = [] then mapGet m k
        else some ((mapGet m k).getD [] ++
          (kvs.filter (fun kv => decide (kv.1 = k))).map Prod.snd) := by
  induction kvs generalizing m with
  | nil => simp
  | cons kv kvs ih =>
    simp only [List.foldl_cons]
    rw [ih]
    by_cases h1 : kv.1 = k
    · by_cases h2 : kvs.filter (fun kv => decide (kv.1 = k)) = []
      · simp [List.filter_cons, h1, h2, Values.Add, mapGet_mapSet]
      · simp [List.filter_cons, h1, h2, Values.Add, mapGet_mapSet]
    · have hf : List.filter (fun kv => decide (kv.1 = k)) (kv :: kvs)
          = List.filter (fun kv => decide (kv.1 = k)) kvs := by
        simp [List.filter_cons, h1]
      rw [hf]
      simp [h1, Values.Add, mapGet_mapSet]

theorem foldl_HeaderAdd {Value : Type} (env : Env Value) (hs : GoMap GoString) (hd : Header) :
    hs.foldl (fun hd kv => Header.Add env hd kv.1 kv.2) hd
      = (hs.map (fun kv => (env.canonicalMIMEHeaderKey kv.1, kv.2))).foldl
          (fun m kv => Values.Add m kv.1 kv.2) hd := by
  rw [List.foldl_map]
  rfl

theorem Values_foldl_HeaderAdd {Value : Type} (env : Env Value) (hs : GoMap GoString)
    (k : GoString) :
    Header.Values env (hs.foldl (fun hd kv => Header.Add env hd kv.1 kv.2) []) k
      = (hs.filter (fun kv =>
          decide (env.canonicalMIMEHeaderKey kv.1 = env.canonicalMIMEHeaderKey k))).map
          Prod.snd := by
  rw [foldl_HeaderAdd, Header.Values, mapGet_foldl_Add, List.filter_map]
  by_cases h : hs.filter (fun kv =>
      decide (env.canonicalMIMEHeaderKey kv.1 = env.canonicalMIMEHeaderKey k)) = []
  · have h' : List.filter ((fun kv : GoString × GoString => decide (kv.1 = env.canonicalMIMEHeaderKey k)) ∘
        fun kv => (env.canonicalMIMEHeaderKey kv.1, kv.2)) hs = [] := h
    simp [h, h', mapGet]
  · have h' : List.filter ((fun kv : GoString × GoString => decide (kv.1 = env.canonicalMIMEHeaderKey k)) ∘
        fun kv => (env.canonicalMIMEHeaderKey kv.1, kv.2)) hs =
        hs.filter (fun kv =>
          decide (env.canonicalMIMEHeaderKey kv.1 = env.canonicalMIMEHeaderKey k)) := rfl
    simp [h, h', mapGet, List.map_map]

theorem Values_HeaderAdd {Value : Type} (env : Env Value) (hd : Header) (k v : GoString) :
    Header.Values env (Header.Add env hd k v) k = Header.Values env hd k ++ [v] := by
  simp [Header.Values, Header.Add, mapGet_mapSet]

theorem httpNewRequest_ok {Value : Type} (env : Env Value) (method url : GoString)
    (body : Option Reader) (q : HTTPRequest) (h : httpNewRequest env method url body = .ok q) :
    q.Header = [] ∧ q.Body = body := by
  unfold httpNewRequest at h
  dsimp only at h
  by_cases hv : env.validMethod (if method = [] then str "GET" else method) = true
  · cases hu : env.urlParse url with
    | error e => simp [hv, hu] at h
    | ok u =>
      simp only [hv, hu, not_true_eq_false, if_false] at h
      cases h
      exact ⟨rfl, rfl⟩
  · simp [hv] at h

theorem foldl_request_header {Value : Type} (env : Env Value) (hs : GoMap GoString)
    (q : HTTPRequest) :
    hs.foldl (fun req kv => { req with Header := Header.Add env req.Header kv.1 kv.2 }) q
      = { q with Header := hs.foldl (fun hd kv => Header.Add env hd kv.1 kv.2) q.Header } := by
  induction hs generalizing q with
  | nil => rfl
  | cons kv hs ih => simp only [List.foldl_cons]; rw [ih]

theorem nodup_mapKeys_foldl_mapSet {β : Type} (hs : GoMap β) (m : GoMap β)
    (h : (mapKeys m).Nodup) :
    (mapKeys (hs.foldl (fun m kv => mapSet m kv.1 kv.2) m)).Nodup := by
  induction hs generalizing m with
  | nil => exact h
  | cons kv hs ih => exact ih _ (nodup_mapKeys_mapSet m _ _ h)

/-- What `NewRequest` has done when it returns a request: the options ran on a request that was
not yet built, and the headers of the built request are the interim map, added one by one. -/
theorem NewRequest_ok {Value : Type} (env : Env Value) (h : Helper Value)
    (method path : GoString) (opts : List (RequestOption Value)) (r : Request Value)
    (hb : h.NewRequest env method path opts = .ok r) :
    ∃ (r0 : Request Value) (q0 : HTTPRequest),
      r0.req = none ∧ r0.body = none ∧ (mapKeys r0.headers).Nodup ∧
      r = { (opts.foldl (fun r opt => opt r) r0 : Request Value) with
            req := some { q0 with
              Header := (opts.foldl (fun r opt => opt r) r0).headers.foldl
                (fun hd kv => Header.Add env hd kv.1 kv.2) [],
              Body := (opts.foldl (fun r opt => opt r) r0).body } } := by
  unfold Helper.NewRequest at hb
  cases hp : (if h.baseURL ≠ [] then env.urlJoinPath h.baseURL path else Except.ok path) with
  | error e => simp [hp] at hb
  | ok p =>
    simp only [hp] at hb
    cases hu : env.urlParse p with
    | error e => simp [hu] at hb
    | ok u =>
      simp only [hu] at hb
      rw [foldl_AddHeader env h.headers _ rfl] at hb
      dsimp only at hb
      generalize hr1 : (opts.foldl (fun r opt => opt r)
        ({ helper := h, req := none, method := method, url := u, body := none,
           headers := List.foldl (fun m kv => mapSet m kv.1 kv.2) [] h.headers,
           query := [] } : Request Value)) = r1 at hb
      have hq : ∀ q, httpNewRequest env method r1.url.String r1.body = .ok q →
          (Except.ok { r1 with req := some (r1.headers.foldl
            (fun req kv => { req with Header := Header.Add env req.Header kv.1 kv.2 }) q) }
            : Except GoError (Request Value)) = Except.ok r →
          r = { r1 with req := some { q with
              Header := r1.headers.foldl (fun hd kv => Header.Add env hd kv.1 kv.2) [],
              Body := r1.body } } := by
        intro q hq hr
        cases hr
        rw [foldl_request_header]
        obtain ⟨h1, h2⟩ := httpNewRequest_ok env _ _ _ q hq
        rw [h1, ← h2]
      refine ⟨
        { helper := h, req := none, method := method, url := u, body := none,
          headers := List.foldl (fun m kv => mapSet m kv.1 kv.2) [] h.headers,
          query := [] }, ?_, rfl, rfl,
        nodup_mapKeys_foldl_mapSet h.headers [] (by simp [mapKeys]), ?_⟩
      · exact (match httpNewRequest env method r1.url.String r1.body with
          | .ok q => q
          | .error _ => ⟨[], r1.url, [], none⟩)
      · rw [hr1]
        by_cases hbody : r1.body = none
        · rw [if_neg (by simp [hbody]), ← hbody] at hb
          cases hq0 : httpNewRequest env method r1.url.String r1.body with
          | error e => simp [hq0] at hb
          | ok q =>
            simp only [hq0] at hb
            exact hq q hq0 hb
        · rw [if_pos hbody] at hb
          cases hq0 : httpNewRequest env method r1.url.String r1.body with
          | error e => simp [hq0] at hb
          | ok q =>
            simp only [hq0] at hb
            exact hq q hq0 hb

theorem WithJSON_ok {Value : Type} (env : Env Value) (v : Value) (buf : GoString)
    (r : Request Value) (hm : env.jsonMarshal v = .ok buf) (h : r.req = none) :
    WithJSON env v r = { r with
      headers := mapSet (mapSet r.headers headerContentType (str "application/json"))
        (str "Content-Length") (decimal buf.length),
      body := some buf } := by
  simp [WithJSON, hm, Request.AddHeader, h]

theorem WithXML_ok {Value : Type} (env : Env Value) (v : Value) (buf : GoString)
    (r : Request Value) (hm : env.xmlMarshal v = .ok buf) (h : r.req = none) :
    WithXML env v r = { r with
      headers := mapSet (mapSet r.headers headerContentType (str "application/xml"))
        (str "Content-Length") (decimal buf.length),
      body := some buf } := by
  simp [WithXML, hm, Request.AddHeader, h]

theorem WithJSON_error {Value : Type} (env : Env Value) (v : Value) (e : GoError)
    (hm : env.jsonMarshal v = .error e) : WithJSON env v = WithBody none := by
  funext r
  simp [WithJSON, hm, WithBody]

theorem WithXML_error {Value : Type} (env : Env Value) (v : Value) (e : GoError)
    (hm : env.xmlMarshal v = .error e) : WithXML env v = WithBody none := by
  funext r
  simp [WithXML, hm, WithBody]

theorem option_call_inv {Value : Type} (env : Env Value) (c : RequestOptionCall Value)
    (r : Request Value) (h : r.req = none) (hn : (mapKeys r.headers).Nodup) :
    (c.option env r).req = none ∧ (mapKeys (c.option env r).headers).Nodup := by
  cases c with
  | withQuery k v =>
    simp only [RequestOptionCall.option, WithQuery]
    rw [AddQuery_of_req_none r _ _ h]
    exact ⟨h, hn⟩
  | withRequestHeader k v =>
    simp only [RequestOptionCall.option, WithRequestHeader]
    rw [AddHeader_of_req_none env r _ _ h]
    exact ⟨h, nodup_mapKeys_mapSet _ _ _ hn⟩
  | withBody b => exact ⟨h, hn⟩
  | withJSON v =>
    simp only [RequestOptionCall.option]
    cases hm : env.jsonMarshal v with
    | error e => rw [WithJSON_error env v e hm]; exact ⟨h, hn⟩
    | ok buf =>
      rw [WithJSON_ok env v buf r hm h]
      exact ⟨h, nodup_mapKeys_mapSet _ _ _ (nodup_mapKeys_mapSet _ _ _ hn)⟩
  | withXML v =>
    simp only [RequestOptionCall.option]
    cases hm : env.xmlMarshal v with
    | error e => rw [WithXML_error env v e hm]; exact ⟨h, hn⟩
    | ok buf =>
      rw [WithXML_ok env v buf r hm h]
      exact ⟨h, nodup_mapKeys_mapSet _ _ _ (nodup_mapKeys_mapSet _ _ _ hn)⟩
  | withContentType ct =>
    simp only [RequestOptionCall.option, WithContentType]
    rw [AddHeader_of_req_none env r _ _ h]
    exact ⟨h, nodup_mapKeys_mapSet _ _ _ hn⟩

theorem foldl_option_calls_inv {Value : Type} (env : Env Value)
    (calls : List (RequestOptionCall Value)) (r : Request Value) (h : r.req = none)
    (hn : (mapKeys r.headers).Nodup) :
    ((calls.map (RequestOptionCall.option env)).foldl (fun r opt => opt r) r).req = none ∧
    (mapKeys ((calls.map (RequestOptionCall.option env)).foldl
      (fun r opt => opt r) r).headers).Nodup := by
  induction calls generalizing r with
  | nil => exact ⟨h, hn⟩
  | cons c calls ih =>
    simp only [List.map_cons, List.foldl_cons]
    exact ih _ (option_call_inv env c r h hn).1 (option_call_inv env c r h hn).2

/-! ## Headers of a built request -/

/-- C6, the claim as stated fails: with the default header `X-Token: one` on the helper and
the request option `WithRequestHeader("X-Token", "two")`, and likewise with two request options
setting `X-Token` to `one` and then to `two`, the built request carries `two` alone; `one` is
not among its values. -/
theorem NewRequest_same_header_counterexample :
    (((New [WithHeader (str "X-Token") (str "one")]).NewRequest exampleEnv (str "GET")
        (str "http://localhost/test")
        [WithRequestHeader exampleEnv (str "X-Token") (str "two")]).toOption.bind
          (fun r => r.req)).map (fun q => Header.Values exampleEnv q.Header (str "X-Token"))
      = some [str "two"] ∧
    (((New []).NewRequest exampleEnv (str "GET") (str "http://localhost/test")
        [WithRequestHeader exampleEnv (str "X-Token") (str "one"),
         WithRequestHeader exampleEnv (str "X-Token") (str "two")]).toOption.bind
          (fun r => r.req)).map (fun q => Header.Values exampleEnv q.Header (str "X-Token"))
      = some [str "two"] ∧
    str "one" ∉ [str "two"] := by
  refine ⟨by decide, by decide, by decide⟩

/-- C6, amended: while a request is being built its headers are kept in a map from name to one
value, so a later value for a name replaces the earlier one.  Whatever the helper's default
headers and the options before it, when the last option is `WithRequestHeader(k, v2)` the
interim map holds `v2` for `k`, and the built request carries exactly `v2` under `k` (no other
header name in the map having the canonical form of `k`).  Values are added next to the
earlier ones only afterwards: `AddHeader(k, v3)` on the built request gives `v2, v3`. -/
theorem NewRequest_later_header_replaces {Value : Type} (env : Env Value) (h : Helper Value)
    (method path : GoString) (pre : List (RequestOptionCall Value)) (k v2 : GoString)
    (r : Request Value)
    (hb : h.NewRequest env method path
      (pre.map (RequestOptionCall.option env) ++ [WithRequestHeader env k v2]) = .ok r)
    (huniq : ∀ k' ∈ mapKeys r.headers,
      env.canonicalMIMEHeaderKey k' = env.canonicalMIMEHeaderKey k → k' = k) :
    mapGet r.headers k = some v2 ∧
    ∃ q, r.req = some q ∧ Header.Values env q.Header k = [v2] ∧
      ∀ v3, (r.AddHeader env k v3).req.map (fun q => Header.Values env q.Header k)
        = some [v2, v3] := by
  obtain ⟨r0, q0, h0, _, hn0, hr⟩ := NewRequest_ok env h method path _ r hb
  rw [List.foldl_append] at hr
  obtain ⟨ha, hna⟩ := foldl_option_calls_inv env pre r0 h0 hn0
  generalize (pre.map (RequestOptionCall.option env)).foldl (fun r opt => opt r) r0 = ra
    at hr ha hna
  simp only [List.foldl_cons, List.foldl_nil, WithRequestHeader] at hr
  rw [AddHeader_of_req_none env ra _ _ ha] at hr
  dsimp only at hr
  have hheaders : r.headers = mapSet ra.headers k v2 := by rw [hr]
  have hget : mapGet r.headers k = some v2 := by rw [hheaders, mapGet_mapSet]; simp
  have hnr : (mapKeys r.headers).Nodup := by
    rw [hheaders]; exact nodup_mapKeys_mapSet _ _ _ hna
  have hvalues : Header.Values env
      (r.headers.foldl (fun hd kv => Header.Add env hd kv.1 kv.2) []) k = [v2] := by
    rw [Values_foldl_HeaderAdd]
    have hf : r.headers.filter (fun kv =>
          decide (env.canonicalMIMEHeaderKey kv.1 = env.canonicalMIMEHeaderKey k))
        = r.headers.filter (fun kv => decide (kv.1 = k)) := by
      apply List.filter_congr
      intro kv hkv
      have hk : kv.1 ∈ mapKeys r.headers := List.mem_map.2 ⟨kv, hkv, rfl⟩
      by_cases hc : kv.1 = k
      · simp [hc]
      · have : ¬ env.canonicalMIMEHeaderKey kv.1 = env.canonicalMIMEHeaderKey k :=
          fun e => hc (huniq _ hk e)
        simp [hc, this]
    rw [hf, filter_key_of_mapGet _ _ _ hnr hget]
    rfl
  refine ⟨hget, ?_⟩
  rw [hheaders] at hvalues
  subst hr
  refine ⟨_, rfl, hvalues, fun v3 => ?_⟩
  simp only [Request.AddHeader, Option.map_some']
  rw [Values_HeaderAdd, hvalues]
  rfl

theorem NewRequest_later_header_replaces_witness :
    ∃ r, (New [WithHeader (str "X-Token") (str "one")]).NewRequest exampleEnv (str "GET")
        (str "http://localhost/test")
        ([].map (RequestOptionCall.option exampleEnv) ++
          [WithRequestHeader exampleEnv (str "X-Token") (str "two")]) = .ok r ∧
      mapGet r.headers (str "X-Token") = some (str "two") ∧
      ∃ q, r.req = some q ∧ Header.Values exampleEnv q.Header (str "X-Token") = [str "two"] ∧
        ∀ v3, (r.AddHeader exampleEnv (str "X-Token") v3).req.map
            (fun q => Header.Values exampleEnv q.Header (str "X-Token"))
          = some [str "two", v3] :=
  ⟨_, rfl, NewRequest_later_header_replaces exampleEnv
    (New [WithHeader (str "X-Token") (str "one")]) (str "GET") (str "http://localhost/test")
    [] (str "X-Token") (str "two") _ rfl (by
      intro k' hk' _
      have : k' ∈ [str "X-Token"] := hk'
      simpa using this)⟩

/-! ## Serialised bodies -/

theorem leavesBody_call_inv {Value : Type} (env : Env Value) (c : RequestOptionCall Value)
    (r : Request Value) (h : r.req = none) (hc : c.leavesBody = true) :
    (c.option env r).req = none ∧ (c.option env r).body = r.body ∧
    mapGet (c.option env r).headers headerContentType = mapGet r.headers headerContentType ∧
    mapGet (c.option env r).headers (str "Content-Length")
      = mapGet r.headers (str "Content-Length") := by
  cases c with
  | withQuery k v =>
    simp only [RequestOptionCall.option, WithQuery]
    rw [AddQuery_of_req_none r _ _ h]
    exact ⟨h, rfl, rfl, rfl⟩
  | withRequestHeader k v =>
    simp only [RequestOptionCall.leavesBody, decide_eq_true_eq] at hc
    simp only [RequestOptionCall.option, WithRequestHeader]
    rw [AddHeader_of_req_none env r _ _ h]
    refine ⟨h, rfl, ?_, ?_⟩
    · rw [mapGet_mapSet, if_neg hc.1]
    · rw [mapGet_mapSet, if_neg hc.2]
  | withBody b => simp [RequestOptionCall.leavesBody] at hc
  | withJSON v => simp [RequestOptionCall.leavesBody] at hc
  | withXML v => simp [RequestOptionCall.leavesBody] at hc
  | withContentType ct => simp [RequestOptionCall.leavesBody] at hc

theorem foldl_leavesBody_inv {Value : Type} (env : Env Value)
    (post : List (RequestOptionCall Value)) (r : Request Value) (h : r.req = none)
    (hpost : ∀ c ∈ post, c.leavesBody = true) :
    ((post.map (RequestOptionCall.option env)).foldl (fun r opt => opt r) r).body = r.body ∧
    mapGet ((post.map (RequestOptionCall.option env)).foldl
        (fun r opt => opt r) r).headers headerContentType
      = mapGet r.headers headerContentType ∧
    mapGet ((post.map (RequestOptionCall.option env)).foldl
        (fun r opt => opt r) r).headers (str "Content-Length")
      = mapGet r.headers (str "Content-Length") := by
  induction post generalizing r with
  | nil => exact ⟨rfl, rfl, rfl⟩
  | cons c post ih =>
    simp only [List.map_cons, List.foldl_cons]
    obtain ⟨h1, h2, h3, h4⟩ :=
      leavesBody_call_inv env c r h (hpost c (List.mem_cons_self _ _))
    obtain ⟨i1, i2, i3⟩ := ih _ h1 (fun c' hc' => hpost c' (List.mem_cons_of_mem _ hc'))
    exact ⟨i1.trans h2, i2.trans h3, i3.trans h4⟩

theorem mem_Values_of_mapGet {Value : Type} (env : Env Value) (hs : GoMap GoString)
    (k v : GoString) (h : mapGet hs k = some v) :
    v ∈ Header.Values env (hs.foldl (fun hd kv => Header.Add env hd kv.1 kv.2) []) k := by
  rw [Values_foldl_HeaderAdd]
  exact List.mem_map.2 ⟨(k, v), List.mem_filter.2 ⟨mem_of_mapGet hs k v h, by simp⟩, rfl⟩

/-- The built request when one option sets a serialised body with its two headers and the
options after it leave body and the two headers alone. -/
theorem NewRequest_serialised {Value : Type} (env : Env Value) (h : Helper Value)
    (method path : GoString) (pre post : List (RequestOptionCall Value))
    (o : RequestOption Value) (ct buf : GoString) (r : Request Value)
    (ho : ∀ ra : Request Value, ra.req = none → o ra = { ra with
      headers := mapSet (mapSet ra.headers headerContentType ct)
        (str "Content-Length") (decimal buf.length),
      body := some buf })
    (hpost : ∀ c ∈ post, c.leavesBody = true)
    (hb : h.NewRequest env method path
      (pre.map (RequestOptionCall.option env) ++ o :: post.map (RequestOptionCall.option env))
        = .ok r) :
    ∃ q, r.req = some q ∧ q.Body = some buf ∧
      ct ∈ Header.Values env q.Header (str "Content-Type") ∧
      decimal buf.length ∈ Header.Values env q.Header (str "Content-Length") := by
  obtain ⟨r0, q0, h0, _, hn0, hr⟩ := NewRequest_ok env h method path _ r hb
  rw [List.foldl_append, List.foldl_cons] at hr
  obtain ⟨ha, _⟩ := foldl_option_calls_inv env pre r0 h0 hn0
  generalize (pre.map (RequestOptionCall.option env)).foldl (fun r opt => opt r) r0 = ra
    at hr ha
  rw [ho ra ha] at hr
  obtain ⟨p1, p2, p3⟩ := foldl_leavesBody_inv env post
    { ra with
      headers := mapSet (mapSet ra.headers headerContentType ct)
        (str "Content-Length") (decimal buf.length),
      body := some buf } ha hpost
  generalize (post.map (RequestOptionCall.option env)).foldl (fun r opt => opt r)
    ({ ra with
      headers := mapSet (mapSet ra.headers headerContentType ct)
        (str "Content-Length") (decimal buf.length),
      body := some buf } : Request Value) = rb at hr p1 p2 p3
  have hne : ¬ str "Content-Length" = headerContentType := by decide
  have g1 : mapGet rb.headers headerContentType = some ct := by
    rw [p2]
    simp only [mapGet_mapSet, hne, if_false, if_true]
  have g2 : mapGet rb.headers (str "Content-Length") = some (decimal buf.length) := by
    rw [p3]
    simp only [mapGet_mapSet, if_true]
  subst hr
  exact ⟨_, rfl, p1, mem_Values_of_mapGet env _ _ _ g1, mem_Values_of_mapGet env _ _ _ g2⟩

/-- The built request when one option clears the body and the options after it leave the body
alone. -/
theorem NewRequest_cleared {Value : Type} (env : Env Value) (h : Helper Value)
    (method path : GoString) (pre post : List (RequestOptionCall Value))
    (r : Request Value) (hpost : ∀ c ∈ post, c.leavesBody = true)
    (hb : h.NewRequest env method path
      (pre.map (RequestOptionCall.option env) ++
        WithBody none :: post.map (RequestOptionCall.option env)) = .ok r) :
    ∃ q, r.req = some q ∧ q.Body = none := by
  obtain ⟨r0, q0, h0, _, hn0, hr⟩ := NewRequest_ok env h method path _ r hb
  rw [List.foldl_append, List.foldl_cons] at hr
  obtain ⟨ha, _⟩ := foldl_option_calls_inv env pre r0 h0 hn0
  generalize (pre.map (RequestOptionCall.option env)).foldl (fun r opt => opt r) r0 = ra
    at hr ha
  obtain ⟨p1, _, _⟩ := foldl_leavesBody_inv env post (WithBody none ra) ha hpost
  subst hr
  exact ⟨_, rfl, p1⟩

theorem NewRequest_WithBody_none {Value : Type} (env : Env Value) (h : Helper Value)
    (method path : GoString) :
    h.NewRequest env method path [WithBody none] = h.NewRequest env method path [] := by
  unfold Helper.NewRequest
  cases (if h.baseURL ≠ [] then env.urlJoinPath h.baseURL path else Except.ok path) with
  | error e => rfl
  | ok p =>
    dsimp only
    cases env.urlParse p with
    | error e => rfl
    | ok u =>
      dsimp only [List.foldl_nil, List.foldl_cons]
      rw [foldl_AddHeader env h.headers _ rfl]
      rfl

/-- C7, the claim as stated fails: `WithJSON(v)` is the only body option and serialisation
succeeds, yet with `WithContentType("text/plain")` after it the built request carries
`text/plain` alone under `Content-Type`, and with `WithRequestHeader("Content-Length", "999")`
after it `999` alone under `Content-Length`; the same holds for `WithXML(v)`.  The later
option replaces the entry that the body option wrote into the interim header map. -/
theorem WithJSON_later_header_counterexample :
    exampleEnv.jsonMarshal (some (str "\x7b\"a\":1\x7d")) = .ok (str "\x7b\"a\":1\x7d") ∧
    (((New [WithBaseURL (str "http://localhost")]).NewRequest exampleEnv (str "POST")
        (str "/test")
        [WithJSON exampleEnv (some (str "\x7b\"a\":1\x7d")),
         WithContentType exampleEnv (str "text/plain")]).toOption.bind
          (fun r => r.req)).map
        (fun q => (q.Body, Header.Values exampleEnv q.Header (str "Content-Type")))
      = some (some (str "\x7b\"a\":1\x7d"), [str "text/plain"]) ∧
    str "application/json" ∉ [str "text/plain"] ∧
    (((New [WithBaseURL (str "http://localhost")]).NewRequest exampleEnv (str "POST")
        (str "/test")
        [WithJSON exampleEnv (some (str "\x7b\"a\":1\x7d")),
         WithRequestHeader exampleEnv (str "Content-Length") (str "999")]).toOption.bind
          (fun r => r.req)).map
        (fun q => (q.Body, Header.Values exampleEnv q.Header (str "Content-Length")))
      = some (some (str "\x7b\"a\":1\x7d"), [str "999"]) ∧
    decimal (str "\x7b\"a\":1\x7d").length ∉ [str "999"] ∧
    exampleEnv.xmlMarshal (some (str "<a>1</a>")) = .ok (str "<a>1</a>") ∧
    (((New [WithBaseURL (str "http://localhost")]).NewRequest exampleEnv (str "POST")
        (str "/test")
        [WithXML exampleEnv (some (str "<a>1</a>")),
         WithContentType exampleEnv (str "text/plain")]).toOption.bind
          (fun r => r.req)).map
        (fun q => (q.Body, Header.Values exampleEnv q.Header (str "Content-Type")))
      = some (some (str "<a>1</a>"), [str "text/plain"]) ∧
    str "application/xml" ∉ [str "text/plain"] := by
  refine ⟨rfl, by decide, by decide, by decide, by decide, rfl, by decide, by decide⟩

/-- C7, amended: let `WithJSON(v)` (resp. `WithXML(v)`) be an option of `NewRequest`, after any
options and before options that set no body and no header named exactly `Content-Type` or
`Content-Length` (a later option for one of these names would replace the value).  If
serialisation gives the bytes `b`, the built request has the body `b`, the value
`application/json` (resp. `application/xml`) under `Content-Type` and the decimal length of `b`
under `Content-Length`.  If serialisation fails, the option does what `WithBody(nil)` does,
clearing the body and touching no header: the built request has no body, and `NewRequest` with
this one option returns what it returns with no option at all, so no error comes of it. -/
theorem WithJSON_WithXML_set_body_and_headers {Value : Type} (env : Env Value)
    (h : Helper Value) (method path : GoString) (pre post : List (RequestOptionCall Value))
    (v : Value) (hpost : ∀ c ∈ post, c.leavesBody = true) :
    (∀ r, h.NewRequest env method path (pre.map (RequestOptionCall.option env) ++
          WithJSON env v :: post.map (RequestOptionCall.option env)) = .ok r →
      (∀ b, env.jsonMarshal v = .ok b →
        ∃ q, r.req = some q ∧ q.Body = some b ∧
          str "application/json" ∈ Header.Values env q.Header (str "Content-Type") ∧
          decimal b.length ∈ Header.Values env q.Header (str "Content-Length")) ∧
      (∀ e, env.jsonMarshal v = .error e → ∃ q, r.req = some q ∧ q.Body = none)) ∧
    (∀ e, env.jsonMarshal v = .error e →
      WithJSON env v = WithBody none ∧
      h.NewRequest env method path [WithJSON env v] = h.NewRequest env method path []) ∧
    (∀ r, h.NewRequest env method path (pre.map (RequestOptionCall.option env) ++
          WithXML env v :: post.map (RequestOptionCall.option env)) = .ok r →
      (∀ b, env.xmlMarshal v = .ok b →
        ∃ q, r.req = some q ∧ q.Body = some b ∧
          str "application/xml" ∈ Header.Values env q.Header (str "Content-Type") ∧
          decimal b.length ∈ Header.Values env q.Header (str "Content-Length")) ∧
      (∀ e, env.xmlMarshal v = .error e → ∃ q, r.req = some q ∧ q.Body = none)) ∧
    (∀ e, env.xmlMarshal v = .error e →
      WithXML env v = WithBody none ∧
      h.NewRequest env method path [WithXML env v] = h.NewRequest env method path []) := by
  refine ⟨fun r hb => ⟨fun b hm => ?_, fun e hm => ?_⟩, fun e hm => ⟨WithJSON_error env v e hm, ?_⟩,
    fun r hb => ⟨fun b hm => ?_, fun e hm => ?_⟩, fun e hm => ⟨WithXML_error env v e hm, ?_⟩⟩
  · exact NewRequest_serialised env h method path pre post _ _ b r
      (fun ra hra => WithJSON_ok env v b ra hm hra) hpost hb
  · rw [WithJSON_error env v e hm] at hb
    exact NewRequest_cleared env h method path pre post r hpost hb
  · rw [WithJSON_error env v e hm, NewRequest_WithBody_none]
  · exact NewRequest_serialised env h method path pre post _ _ b r
      (fun ra hra => WithXML_ok env v b ra hm hra) hpost hb
  · rw [WithXML_error env v e hm] at hb
    exact NewRequest_cleared env h method path pre post r hpost hb
  · rw [WithXML_error env v e hm, NewRequest_WithBody_none]

theorem WithJSON_WithXML_set_body_and_headers_witness :
    ∃ r, (New [WithBaseURL (str "http://localhost")]).NewRequest exampleEnv (str "POST")
        (str "/test") ([].map (RequestOptionCall.option exampleEnv) ++
          WithJSON exampleEnv (some (str "\x7b\"a\":1\x7d")) ::
            [RequestOptionCall.withQuery (str "a") (str "value")].map
              (RequestOptionCall.option exampleEnv)) = .ok r ∧
      ∃ q, r.req = some q ∧ q.Body = some (str "\x7b\"a\":1\x7d") ∧
        str "application/json" ∈ Header.Values exampleEnv q.Header (str "Content-Type") ∧
        decimal (str "\x7b\"a\":1\x7d").length
          ∈ Header.Values exampleEnv q.Header (str "Content-Length") :=
  ⟨_, rfl, ((WithJSON_WithXML_set_body_and_headers exampleEnv
    (New [WithBaseURL (str "http://localhost")]) (str "POST") (str "/test") []
    [RequestOptionCall.withQuery (str "a") (str "value")] (some (str "\x7b\"a\":1\x7d"))
    (by decide)).1 _ rfl).1 _ rfl⟩

/-! ## The order of strings and the sorting of keys -/

theorem strLt_irrefl (a : GoString) : strLt a a = false := by
  induction a with
  | nil => rfl
  | cons x xs ih => simp [strLt, ih]

theorem strLt_asymm (a b : GoString) (h : strLt a b = true) : strLt b a = false := by
  induction a generalizing b with
  | nil => cases b <;> simp [strLt] at h ⊢
  | cons x xs ih =>
    cases b with
    | nil => simp [strLt] at h
    | cons y ys =>
      simp only [strLt] at h ⊢
      by_cases h1 : x < y
      · simp [h1, lt_asymm h1]
      · simp only [h1, if_false] at h
        by_cases h2 : y < x
        · simp [h2] at h
        · simp only [h2, if_false] at h
          simp [h1, h2, ih ys h]

theorem strLt_connex (a b : GoString) (h1 : strLt a b = false) (h2 : strLt b a = false) :
    a = b := by
  induction a generalizing b with
  | nil => cases b <;> simp [strLt] at h1 ⊢
  | cons x xs ih =>
    cases b with
    | nil => simp [strLt] at h2
    | cons y ys =>
      simp only [strLt] at h1 h2
      by_cases g1 : x < y
      · simp [g1] at h1
      · by_cases g2 : y < x
        · simp [g2] at h2
        · simp only [g1, g2, if_false] at h1 h2
          have : x = y := le_antisymm (not_lt.1 g2) (not_lt.1 g1)
          rw [this, ih ys h1 h2]

theorem strLt_trans (a b c : GoString) (h1 : strLt a b = true) (h2 : strLt b c = true) :
    strLt a c = true := by
  induction a generalizing b c with
  | nil =>
    cases b with
    | nil => simp [strLt] at h1
    | cons y ys => cases c <;> simp [strLt] at h2 ⊢
  | cons x xs ih =>
    cases b with
    | nil => simp [strLt] at h1
    | cons y ys =>
      cases c with
      | nil => simp [strLt] at h2
      | cons z zs =>
        simp only [strLt] at h1 h2 ⊢
        by_cases g1 : x < y
        · by_cases g2 : y < z
          · simp [lt_trans g1 g2]
          · simp only [g2, if_false] at h2
            by_cases g3 : z < y
            · simp [g3] at h2
            · have : y = z := le_antisymm (not_lt.1 g3) (not_lt.1 g2)
              subst this
              simp [g1]
        · simp only [g1, if_false] at h1
          by_cases g1' : y < x
          · simp [g1'] at h1
          · simp only [g1', if_false] at h1
            have : x = y := le_antisymm (not_lt.1 g1') (not_lt.1 g1)
            subst this
            by_cases g2 : x < z
            · simp [g2]
            · simp only [g2, if_false] at h2 ⊢
              by_cases g3 : z < x
              · simp [g3] at h2
              · simp only [g3, if_false] at h2 ⊢
                exact ih ys zs h1 h2

theorem strLe_refl (a : GoString) : strLe a a = true := by
  simp [strLe, strLt_irrefl]

theorem strLe_total (a b : GoString) : strLe a b = true ∨ strLe b a = true := by
  unfold strLe
  cases h : strLt b a with
  | false => simp
  | true => simp [strLt_asymm b a h]

theorem strLe_antisymm (a b : GoString) (h1 : strLe a b = true) (h2 : strLe b a = true) :
    a = b := by
  unfold strLe at h1 h2
  exact strLt_connex a b (by simpa using h2) (by simpa using h1)

theorem strLe_trans (a b c : GoString) (h1 : strLe a b = true) (h2 : strLe b c = true) :
    strLe a c = true := by
  unfold strLe at *
  cases h : strLt c a with
  | false => rfl
  | true =>
    exfalso
    cases hab : strLt a b with
    | true =>
      have := strLt_trans c a b h hab
      simp [this] at h2
    | false =>
      have hba : strLt b a = false := by simpa using h1
      have := strLt_connex a b hab hba
      subst this
      simp [h] at h2

theorem insertKey_perm (k : GoString) (ks : List GoString) : (insertKey k ks).Perm (k :: ks) := by
  induction ks with
  | nil => exact List.Perm.refl _
  | cons k' ks ih =>
    unfold insertKey
    split
    · exact List.Perm.refl _
    · exact (List.Perm.cons k' ih).trans (List.Perm.swap k k' ks)

theorem sortKeys_perm (ks : List GoString) : (sortKeys ks).Perm ks := by
  induction ks with
  | nil => exact List.Perm.refl _
  | cons k ks ih => exact (insertKey_perm k _).trans (List.Perm.cons k ih)

theorem insertKey_sorted (k : GoString) (ks : List GoString)
    (h : ks.Pairwise (fun a b => strLe a b = true)) :
    (insertKey k ks).Pairwise (fun a b => strLe a b = true) := by
  induction ks with
  | nil => simp [insertKey]
  | cons k' ks ih =>
    obtain ⟨h1, h2⟩ := List.pairwise_cons.1 h
    unfold insertKey
    split
    · rename_i hle
      refine List.pairwise_cons.2 ⟨?_, h⟩
      intro x hx
      rcases List.mem_cons.1 hx with hx | hx
      · rw [hx]; exact hle
      · exact strLe_trans _ _ _ hle (h1 x hx)
    · rename_i hle
      refine List.pairwise_cons.2 ⟨?_, ih h2⟩
      intro x hx
      rcases List.mem_cons.1 ((insertKey_perm k ks).mem_iff.1 hx) with hx | hx
      · rw [hx]
        rcases strLe_total k k' with ht | ht
        · exact absurd ht hle
        · exact ht
      · exact h1 x hx

theorem sortKeys_sorted (ks : List GoString) :
    (sortKeys ks).Pairwise (fun a b => strLe a b = true) := by
  induction ks with
  | nil => simp [sortKeys]
  | cons k ks ih => exact insertKey_sorted k _ ih

theorem sorted_perm_eq (l₁ l₂ : List GoString) (hp : l₁.Perm l₂)
    (h₁ : l₁.Pairwise (fun a b => strLe a b = true))
    (h₂ : l₂.Pairwise (fun a b => strLe a b = true)) : l₁ = l₂ := by
  haveI : IsAntisymm GoString (fun a b => strLe a b = true) := ⟨strLe_antisymm⟩
  exact List.eq_of_perm_of_sorted hp h₁ h₂

theorem sortKeys_congr (l₁ l₂ : List GoString) (hp : l₁.Perm l₂) :
    sortKeys l₁ = sortKeys l₂ :=
  sorted_perm_eq _ _ ((sortKeys_perm l₁).trans (hp.trans (sortKeys_perm l₂).symm))
    (sortKeys_sorted l₁) (sortKeys_sorted l₂)

/-! ## Escaping and unescaping -/

set_option maxRecDepth 100000 in
theorem hex_roundtrip : ∀ c : Byte,
    ishex (upperhex (c >>> 4)) = true ∧ ishex (upperhex (c &&& 15)) = true ∧
    unhex (upperhex (c >>> 4)) <<< 4 ||| unhex (upperhex (c &&& 15)) = c := by
  decide

set_option maxRecDepth 100000 in
theorem unescaped_plain : ∀ c : Byte, shouldEscape c = false →
    c ≠ ch '%' ∧ c ≠ ch '+' ∧ c ≠ ch '&' ∧ c ≠ ch '=' ∧ c ≠ ch ';' := by
  decide

set_option maxRecDepth 100000 in
theorem upperhex_plain : ∀ i : Byte,
    upperhex i ≠ ch '&' ∧ upperhex i ≠ ch '=' ∧ upperhex i ≠ ch ';' := by
  decide

theorem QueryUnescape_plain (c : Byte) (cs : GoString) (h1 : c ≠ ch '%') (h2 : c ≠ ch '+') :
    QueryUnescape (c :: cs) = (QueryUnescape cs).map (fun t => c :: t) := by
  rcases cs with _ | ⟨a, _ | ⟨b, t⟩⟩ <;> simp [QueryUnescape, h1, h2]

theorem QueryUnescape_plus (cs : GoString) :
    QueryUnescape (ch '+' :: cs) = (QueryUnescape cs).map (fun t => ch ' ' :: t) := by
  have hp : ¬ ch '+' = ch '%' := by decide
  rcases cs with _ | ⟨a, _ | ⟨b, t⟩⟩ <;> simp [QueryUnescape, hp]

theorem QueryUnescape_percent (a b : Byte) (cs : GoString) (h1 : ishex a = true)
    (h2 : ishex b = true) :
    QueryUnescape (ch '%' :: a :: b :: cs)
      = (QueryUnescape cs).map (fun t => (unhex a <<< 4 ||| unhex b) :: t) := by
  simp [QueryUnescape, h1, h2]

theorem QueryUnescape_QueryEscape (s : GoString) : QueryUnescape (QueryEscape s) = some s := by
  induction s with
  | nil => rfl
  | cons c cs ih =>
    unfold QueryEscape
    by_cases h1 : c = ch ' '
    · rw [if_pos h1, QueryUnescape_plus, ih, h1]
      rfl
    · by_cases h2 : shouldEscape c = true
      · obtain ⟨a1, a2, a3⟩ := hex_roundtrip c
        rw [if_neg h1, if_pos h2, QueryUnescape_percent _ _ _ a1 a2, ih, a3]
        rfl
      · have h2' : shouldEscape c = false := by simpa using h2
        obtain ⟨b1, b2, _⟩ := unescaped_plain c h2'
        rw [if_neg h1, if_neg h2, QueryUnescape_plain _ _ b1 b2, ih]
        rfl

theorem QueryEscape_plain (s : GoString) :
    ∀ c ∈ QueryEscape s, c ≠ ch '&' ∧ c ≠ ch '=' ∧ c ≠ ch ';' := by
  induction s with
  | nil => simp [QueryEscape]
  | cons x xs ih =>
    intro c hc
    unfold QueryEscape at hc
    by_cases h1 : x = ch ' '
    · rw [if_pos h1] at hc
      rcases List.mem_cons.1 hc with hc | hc
      · rw [hc]; decide
      · exact ih c hc
    · by_cases h2 : shouldEscape x = true
      · rw [if_neg h1, if_pos h2] at hc
        rcases List.mem_cons.1 hc with hc | hc
        · rw [hc]; decide
        · rcases List.mem_cons.1 hc with hc | hc
          · rw [hc]; exact upperhex_plain _
          · rcases List.mem_cons.1 hc with hc | hc
            · rw [hc]; exact upperhex_plain _
            · exact ih c hc
      · have h2' : shouldEscape x = false := by simpa using h2
        rw [if_neg h1, if_neg h2] at hc
        rcases List.mem_cons.1 hc with hc | hc
        · rw [hc]
          obtain ⟨_, _, b3, b4, b5⟩ := unescaped_plain x h2'
          exact ⟨b3, b4, b5⟩
        · exact ih c hc

/-! ## Cutting and splitting -/

theorem cut_append (sep : Byte) (a b : GoString) (h : sep ∉ a) :
    cut sep (a ++ sep :: b) = (a, b, true) := by
  induction a with
  | nil => simp [cut]
  | cons x xs ih =>
    have hx : ¬ x = sep := fun e => h (e ▸ List.mem_cons_self _ _)
    have hxs : sep ∉ xs := fun m => h (List.mem_cons_of_mem _ m)
    simp [cut, hx, ih hxs]

theorem splitOn_plain (sep : Byte) (a : GoString) (h : sep ∉ a) : splitOn sep a = [a] := by
  induction a with
  | nil => rfl
  | cons x xs ih =>
    have hx : ¬ x = sep := fun e => h (e ▸ List.mem_cons_self _ _)
    have hxs : sep ∉ xs := fun m => h (List.mem_cons_of_mem _ m)
    simp [splitOn, hx, ih hxs]

theorem splitOn_append (sep : Byte) (a b : GoString) (h : sep ∉ a) :
    splitOn sep (a ++ sep :: b) = a :: splitOn sep b := by
  induction a with
  | nil => simp [splitOn]
  | cons x xs ih =>
    have hx : ¬ x = sep := fun e => h (e ▸ List.mem_cons_self _ _)
    have hxs : sep ∉ xs := fun m => h (List.mem_cons_of_mem _ m)
    simp [splitOn, hx, ih hxs]

theorem splitOn_joinAmp (x : GoString) (xs : List GoString)
    (h : ∀ y ∈ x :: xs, ch '&' ∉ y) : splitOn (ch '&') (joinAmp (x :: xs)) = x :: xs := by
  induction xs generalizing x with
  | nil => exact splitOn_plain _ _ (h x (List.mem_cons_self _ _))
  | cons y ys ih =>
    simp only [joinAmp]
    rw [splitOn_append _ _ _ (h x (List.mem_cons_self _ _)),
      ih y (fun z hz => h z (List.mem_cons_of_mem _ hz))]

/-! ## Parsing an encoded query -/

theorem encodePair_plain (p : GoString × GoString) :
    ch '&' ∉ encodePair p ∧ ch ';' ∉ encodePair p ∧ encodePair p ≠ [] := by
  unfold encodePair
  refine ⟨fun h => ?_, fun h => ?_, by simp⟩
  · rcases List.mem_append.1 h with h | h
    · exact (QueryEscape_plain _ _ h).1 rfl
    · rcases List.mem_cons.1 h with h | h
      · exact absurd h (by decide)
      · exact (QueryEscape_plain _ _ h).1 rfl
  · rcases List.mem_append.1 h with h | h
    · exact (QueryEscape_plain _ _ h).2.2 rfl
    · rcases List.mem_cons.1 h with h | h
      · exact absurd h (by decide)
      · exact (QueryEscape_plain _ _ h).2.2 rfl

theorem parseQueryStep_encodePair (m : Values) (p : GoString × GoString) :
    parseQueryStep m (encodePair p) = m.Add p.1 p.2 := by
  obtain ⟨_, h2, h3⟩ := encodePair_plain p
  have hcut : cut (ch '=') (encodePair p) = (QueryEscape p.1, QueryEscape p.2, true) :=
    cut_append _ _ _ (fun h => (QueryEscape_plain _ _ h).2.1 rfl)
  unfold parseQueryStep
  rw [if_neg h2, if_neg h3, hcut]
  simp [QueryUnescape_QueryEscape]

theorem foldl_parseQueryStep (ps : List (GoString × GoString)) (m : Values) :
    (ps.map encodePair).foldl parseQueryStep m = ps.foldl (fun m p => Values.Add m p.1 p.2) m := by
  induction ps generalizing m with
  | nil => rfl
  | cons p ps ih => simp only [List.map_cons, List.foldl_cons, parseQueryStep_encodePair, ih]

theorem ParseQuery_encodePairs (ps : List (GoString × GoString)) :
    ParseQuery (encodePairs ps) = ps.foldl (fun m p => Values.Add m p.1 p.2) [] := by
  unfold ParseQuery encodePairs
  cases ps with
  | nil => simp [joinAmp, splitOn, parseQueryStep]
  | cons p ps =>
    rw [List.map_cons, splitOn_joinAmp, ← List.map_cons, foldl_parseQueryStep]
    intro y hy
    rw [← List.map_cons] at hy
    obtain ⟨q, _, rfl⟩ := List.mem_map.1 hy
    exact (encodePair_plain q).1

/-! ## `Values.Encode`, spelled out -/

theorem foldl_flatMap' {α β γ : Type} (l : List α) (f : α → List β) (g : γ → β → γ) (b : γ) :
    (l.flatMap f).foldl g b = l.foldl (fun b a => (f a).foldl g b) b := by
  induction l generalizing b with
  | nil => rfl
  | cons a l ih => simp [List.flatMap_cons, List.foldl_append, ih]

theorem Encode_eq_foldl (v : Values) : v.Encode = v.sorted.pairs.foldl encodeStep [] := by
  unfold Values.Encode Values.sorted Values.pairs
  rw [foldl_flatMap', List.foldl_map]
  congr 1
  funext buf k
  simp only [encodeKey, List.foldl_map]
  rfl

theorem joinAmp_cons_append (a b : GoString) (rest : List GoString) :
    joinAmp ((a ++ ch '&' :: b) :: rest) = a ++ ch '&' :: joinAmp (b :: rest) := by
  cases rest with
  | nil => simp [joinAmp]
  | cons y ys => simp [joinAmp]

theorem foldl_encodeStep_of_ne_nil (ps : List (GoString × GoString)) (buf : GoString)
    (h : buf ≠ []) : ps.foldl encodeStep buf = joinAmp (buf :: ps.map encodePair) := by
  induction ps generalizing buf with
  | nil => simp [joinAmp]
  | cons p ps ih =>
    have hlen : buf.length > 0 := List.length_pos.2 h
    have hstep : encodeStep buf p = buf ++ ch '&' :: encodePair p := by
      simp [encodeStep, hlen, encodePair]
    rw [List.foldl_cons, hstep, ih _ (by simp), List.map_cons, joinAmp_cons_append]
    simp [joinAmp]

theorem foldl_encodeStep (ps : List (GoString × GoString)) :
    ps.foldl encodeStep [] = encodePairs ps := by
  cases ps with
  | nil => rfl
  | cons p ps =>
    have hstep : encodeStep [] p = encodePair p := by simp [encodeStep, encodePair]
    rw [List.foldl_cons, hstep, foldl_encodeStep_of_ne_nil _ _ (encodePair_plain p).2.2]
    rfl

theorem Encode_eq_encodePairs (v : Values) : v.Encode = encodePairs v.sorted.pairs := by
  rw [Encode_eq_foldl, foldl_encodeStep]

/-! ## Well-formed values -/

theorem mem_mapSet {β : Type} (m : GoMap β) (k : GoString) (x : β) (e : GoString × β)
    (h : e ∈ mapSet m k x) : e = (k, x) ∨ e ∈ m := by
  induction m with
  | nil => simpa [mapSet] using h
  | cons e' m ih =>
    obtain ⟨ke, y⟩ := e'
    by_cases h1 : ke = k
    · simp only [mapSet, h1, if_true, List.mem_cons] at h
      rcases h with h | h
      · exact Or.inl h
      · exact Or.inr (List.mem_cons_of_mem _ h)
    · simp only [mapSet, h1, if_false, List.mem_cons] at h
      rcases h with h | h
      · exact Or.inr (h ▸ List.mem_cons_self _ _)
      · rcases ih h with h | h
        · exact Or.inl h
        · exact Or.inr (List.mem_cons_of_mem _ h)

theorem WF_nil : Values.WF [] := ⟨by simp [mapKeys], by simp⟩

theorem WF_Add (v : Values) (k x : GoString) (h : v.WF) : (v.Add k x).WF := by
  refine ⟨nodup_mapKeys_mapSet _ _ _ h.1, fun e he => ?_⟩
  rcases mem_mapSet _ _ _ _ he with he | he
  · rw [he]; simp
  · exact h.2 e he

theorem WF_foldl_Add (kvs : List (GoString × GoString)) (v : Values) (h : v.WF) :
    (kvs.foldl (fun m kv => Values.Add m kv.1 kv.2) v).WF := by
  induction kvs generalizing v with
  | nil => exact h
  | cons kv kvs ih => exact ih _ (WF_Add v _ _ h)

theorem WF_parseQueryStep (m : Values) (key : GoString) (h : m.WF) :
    (parseQueryStep m key).WF := by
  unfold parseQueryStep
  split
  · exact h
  · split
    · exact h
    · split
      · exact h
      · split
        · exact h
        · exact WF_Add _ _ _ h

theorem WF_ParseQuery (q : GoString) : (ParseQuery q).WF := by
  unfold ParseQuery
  generalize splitOn (ch '&') q = segs
  have : ∀ m : Values, m.WF → (segs.foldl parseQueryStep m).WF := by
    induction segs with
    | nil => exact fun m h => h
    | cons s segs ih => exact fun m h => ih _ (WF_parseQueryStep m s h)
  exact this [] WF_nil

theorem mapKeys_sorted (v : Values) : mapKeys v.sorted = sortKeys (mapKeys v) := by
  simp [Values.sorted, mapKeys, List.map_map, Function.comp_def]

theorem mapGet_map_key {β : Type} (ks : List GoString) (f : GoString → β) (k : GoString) :
    mapGet (ks.map (fun k => (k, f k))) k = if k ∈ ks then some (f k) else none := by
  induction ks with
  | nil => simp [mapGet]
  | cons k' ks ih =>
    by_cases h : k' = k
    · simp [mapGet, h]
    · have h' : ¬ k = k' := fun e => h e.symm
      simp [mapGet, h, h', ih]

theorem mapGet_sorted (v : Values) (k : GoString) : mapGet v.sorted k = mapGet v k := by
  unfold Values.sorted
  rw [mapGet_map_key]
  by_cases h : k ∈ mapKeys v
  · rw [if_pos ((sortKeys_perm _).mem_iff.2 h)]
    cases hg : mapGet v k with
    | none => exact absurd h ((mapGet_eq_none_iff v k).1 hg)
    | some x => rfl
  · rw [if_neg (fun m => h ((sortKeys_perm _).mem_iff.1 m))]
    exact ((mapGet_eq_none_iff v k).2 h).symm

theorem WF_sorted (v : Values) (h : v.WF) : v.sorted.WF := by
  refine ⟨?_, fun e he => ?_⟩
  · rw [mapKeys_sorted]
    exact (sortKeys_perm _).nodup_iff.2 h.1
  · have hk : e.1 ∈ mapKeys v.sorted := List.mem_map.2 ⟨e, he, rfl⟩
    have hg : mapGet v.sorted e.1 = some e.2 := mapGet_of_mem _ _ _ (by
      rw [mapKeys_sorted]; exact (sortKeys_perm _).nodup_iff.2 h.1) he
    rw [mapGet_sorted] at hg
    exact h.2 _ (mem_of_mapGet v _ _ hg)

theorem mem_mapKeys_iff {β : Type} (m : GoMap β) (k : GoString) :
    k ∈ mapKeys m ↔ mapGet m k ≠ none := by
  rw [Ne, mapGet_eq_none_iff, not_not]

theorem sorted_congr (v w : Values) (hv : (mapKeys v).Nodup) (hw : (mapKeys w).Nodup)
    (h : ∀ k, mapGet v k = mapGet w k) : v.sorted = w.sorted := by
  have hp : (mapKeys v).Perm (mapKeys w) :=
    (List.perm_ext_iff_of_nodup hv hw).2 (fun k => by
      rw [mem_mapKeys_iff, mem_mapKeys_iff, h k])
  unfold Values.sorted
  rw [sortKeys_congr _ _ hp]
  exact List.map_congr_left (fun k _ => by rw [h k])

theorem Encode_congr (v w : Values) (hv : (mapKeys v).Nodup) (hw : (mapKeys w).Nodup)
    (h : ∀ k, mapGet v k = mapGet w k) : v.Encode = w.Encode := by
  rw [Encode_eq_encodePairs, Encode_eq_encodePairs, sorted_congr v w hv hw h]

/-! ## Parsing what `Encode` wrote -/

theorem mapSet_append_new {β : Type} (m : GoMap β) (k : GoString) (x : β)
    (h : k ∉ mapKeys m) : mapSet m k x = m ++ [(k, x)] := by
  induction m with
  | nil => rfl
  | cons e m ih =>
    obtain ⟨ke, y⟩ := e
    have h1 : ¬ ke = k := fun e => h (by simp [mapKeys, e])
    have h2 : k ∉ mapKeys m := fun hm => h (by
      simp only [mapKeys, List.map_cons, List.mem_cons]; exact Or.inr hm)
    simp [mapSet, h1, ih h2]

theorem mapSet_append_last {β : Type} (m : GoMap β) (k : GoString) (x y : β)
    (h : k ∉ mapKeys m) : mapSet (m ++ [(k, x)]) k y = m ++ [(k, y)] := by
  induction m with
  | nil => simp [mapSet]
  | cons e m ih =>
    obtain ⟨ke, z⟩ := e
    have h1 : ¬ ke = k := fun e => h (by simp [mapKeys, e])
    have h2 : k ∉ mapKeys m := fun hm => h (by
      simp only [mapKeys, List.map_cons, List.mem_cons]; exact Or.inr hm)
    simp [mapSet, h1, ih h2]

theorem mapGet_append_last {β : Type} (m : GoMap β) (k : GoString) (x : β)
    (h : k ∉ mapKeys m) : mapGet (m ++ [(k, x)]) k = some x := by
  induction m with
  | nil => simp [mapGet]
  | cons e m ih =>
    obtain ⟨ke, z⟩ := e
    have h1 : ¬ ke = k := fun e => h (by simp [mapKeys, e])
    have h2 : k ∉ mapKeys m := fun hm => h (by
      simp only [mapKeys, List.map_cons, List.mem_cons]; exact Or.inr hm)
    simp [mapGet, h1, ih h2]

theorem Add_new (m : Values) (k x : GoString) (h : k ∉ mapKeys m) :
    m.Add k x = m ++ [(k, [x])] := by
  unfold Values.Add
  rw [(mapGet_eq_none_iff m k).2 h, mapSet_append_new m k _ h]
  rfl

theorem Add_append_last (m : Values) (k x : GoString) (xs : List GoString)
    (h : k ∉ mapKeys m) : Values.Add (m ++ [(k, xs)]) k x = m ++ [(k, xs ++ [x])] := by
  unfold Values.Add
  rw [mapGet_append_last m k xs h, mapSet_append_last m k _ _ h]
  rfl

theorem foldl_Add_same_key (m : Values) (k : GoString) (xs rest : List GoString)
    (h : k ∉ mapKeys m) :
    (rest.map (fun x => (k, x))).foldl (fun m kv => Values.Add m kv.1 kv.2) (m ++ [(k, xs)])
      = m ++ [(k, xs ++ rest)] := by
  induction rest generalizing xs with
  | nil => simp
  | cons x rest ih =>
    simp only [List.map_cons, List.foldl_cons]
    rw [Add_append_last m k x xs h, ih]
    simp

theorem foldl_Add_entry (m : Values) (k : GoString) (vs : List GoString)
    (h : k ∉ mapKeys m) (hv : vs ≠ []) :
    (vs.map (fun x => (k, x))).foldl (fun m kv => Values.Add m kv.1 kv.2) m
      = m ++ [(k, vs)] := by
  cases vs with
  | nil => exact absurd rfl hv
  | cons x rest =>
    simp only [List.map_cons, List.foldl_cons]
    rw [Add_new m k x h, foldl_Add_same_key m k [x] rest h]
    rfl

theorem foldl_Add_pairs_append (v m : Values) (hv : v.WF)
    (hd : ∀ e ∈ v, e.1 ∉ mapKeys m) :
    v.pairs.foldl (fun m kv => Values.Add m kv.1 kv.2) m = m ++ v := by
  induction v generalizing m with
  | nil => simp [Values.pairs]
  | cons e v ih =>
    obtain ⟨hn, he⟩ := hv
    have hn' : e.1 ∉ mapKeys v ∧ (mapKeys v).Nodup := by
      simpa [mapKeys] using hn
    have hwf : Values.WF v := ⟨hn'.2, fun e' he' => he e' (List.mem_cons_of_mem _ he')⟩
    simp only [Values.pairs, List.flatMap_cons, List.foldl_append]
    rw [foldl_Add_entry m e.1 e.2 (hd e (List.mem_cons_self _ _)) (he e (List.mem_cons_self _ _))]
    have := ih (m ++ [(e.1, e.2)]) hwf (fun e' he' hm => by
      simp only [mapKeys, List.map_append, List.map_cons, List.map_nil, List.mem_append,
        List.mem_singleton] at hm
      rcases hm with hm | hm
      · exact hd e' (List.mem_cons_of_mem _ he') hm
      · exact hn'.1 (hm ▸ List.mem_map.2 ⟨e', he', rfl⟩))
    simp only [Values.pairs] at this
    rw [this]
    simp

theorem foldl_Add_pairs (v : Values) (hv : v.WF) :
    v.pairs.foldl (fun m kv => Values.Add m kv.1 kv.2) [] = v := by
  rw [foldl_Add_pairs_append v [] hv (fun _ _ => by simp [mapKeys])]
  rfl

theorem ParseQuery_Encode (v : Values) (hv : v.WF) : ParseQuery v.Encode = v.sorted := by
  rw [Encode_eq_encodePairs, ParseQuery_encodePairs, foldl_Add_pairs _ (WF_sorted v hv)]

/-! ## `AddQuery` on a built request -/

theorem mapGet_Add (v : Values) (k x k' : GoString) :
    mapGet (v.Add k x) k' = if k = k' then some ((mapGet v k).getD [] ++ [x]) else mapGet v k' := by
  simp [Values.Add, mapGet_mapSet]

theorem Encode_Add_sorted (v : Values) (k x : GoString) (hv : v.WF) :
    (v.sorted.Add k x).Encode = (v.Add k x).Encode := by
  apply Encode_congr _ _ (WF_Add _ _ _ (WF_sorted v hv)).1 (WF_Add _ _ _ hv).1
  intro k'
  rw [mapGet_Add, mapGet_Add, mapGet_sorted, mapGet_sorted]

theorem foldl_rawQuery (q : GoString) (kv : GoString × GoString)
    (kvs : List (GoString × GoString)) :
    (kv :: kvs).foldl (fun q kv => ((ParseQuery q).Add kv.1 kv.2).Encode) q
      = ((kv :: kvs).foldl (fun m kv => Values.Add m kv.1 kv.2) (ParseQuery q)).Encode := by
  induction kvs using List.reverseRecOn with
  | nil => rfl
  | append_singleton kvs x ih =>
    rw [← List.cons_append, List.foldl_append, List.foldl_append, ih]
    simp only [List.foldl_cons, List.foldl_nil]
    rw [ParseQuery_Encode _ (WF_foldl_Add _ _ (WF_Add _ _ _ (WF_ParseQuery q)))]
    exact Encode_Add_sorted _ _ _ (WF_foldl_Add _ _ (WF_Add _ _ _ (WF_ParseQuery q)))

theorem AddQueries_built {Value : Type} (r : Request Value) (req : HTTPRequest)
    (kvs : List (GoString × GoString)) (h : r.req = some req) :
    AddQueries r kvs = { r with req := some { req with URL := { req.URL with
      RawQuery := kvs.foldl (fun q kv => ((ParseQuery q).Add kv.1 kv.2).Encode)
        req.URL.RawQuery } } } := by
  unfold AddQueries
  induction kvs generalizing r req with
  | nil =>
    simp only [List.foldl_nil]
    cases r
    simp only at h
    subst h
    rfl
  | cons kv kvs ih =>
    simp only [List.foldl_cons]
    rw [ih (r.AddQuery kv.1 kv.2)
      { req with URL := { req.URL with RawQuery := (req.URL.Query.Add kv.1 kv.2).Encode } }
      (by simp [Request.AddQuery, h])]
    simp [Request.AddQuery, h, URL.Query]

/-! ## The pairs of a query -/

theorem Add_cons_ne (e : GoString × List GoString) (v : Values) (k x : GoString)
    (h : ¬ e.1 = k) : Values.Add (e :: v) k x = e :: Values.Add v k x := by
  obtain ⟨ke, ys⟩ := e
  simp only at h
  simp [Values.Add, mapGet, mapSet, h]

theorem Add_cons_eq (ys : List GoString) (v : Values) (k x : GoString) :
    Values.Add ((k, ys) :: v) k x = (k, ys ++ [x]) :: v := by
  simp [Values.Add, mapGet, mapSet]

theorem pairs_Add_perm (v : Values) (k x : GoString) :
    (v.Add k x).pairs.Perm (v.pairs ++ [(k, x)]) := by
  induction v with
  | nil => exact List.Perm.refl _
  | cons e v ih =>
    by_cases h : e.1 = k
    · obtain ⟨ke, ys⟩ := e
      simp only at h
      subst h
      rw [Add_cons_eq]
      simp only [Values.pairs, List.flatMap_cons, List.map_append, List.map_cons, List.map_nil,
        List.append_assoc]
      exact List.Perm.append_left _ List.perm_append_comm
    · rw [Add_cons_ne e v k x h]
      simp only [Values.pairs, List.flatMap_cons, List.append_assoc]
      exact List.Perm.append_left _ ih

theorem pairs_foldl_Add_perm (kvs : List (GoString × GoString)) (v : Values) :
    (kvs.foldl (fun m kv => Values.Add m kv.1 kv.2) v).pairs.Perm (v.pairs ++ kvs) := by
  induction kvs generalizing v with
  | nil => simp
  | cons kv kvs ih =>
    simp only [List.foldl_cons]
    refine (ih _).trans ?_
    refine ((pairs_Add_perm v kv.1 kv.2).append_right kvs).trans ?_
    simp

theorem map_self_of_nodup (v : Values) (h : (mapKeys v).Nodup) :
    (mapKeys v).map (fun k => (k, (mapGet v k).getD [])) = v := by
  unfold mapKeys
  rw [List.map_map]
  conv_rhs => rw [← List.map_id v]
  apply List.map_congr_left
  intro e he
  simp only [Function.comp_apply, id_eq]
  rw [mapGet_of_mem v e.1 e.2 h he]
  rfl

theorem sorted_perm (v : Values) (h : (mapKeys v).Nodup) : v.sorted.Perm v := by
  have := (sortKeys_perm (mapKeys v)).map (fun k => (k, (mapGet v k).getD []))
  rw [map_self_of_nodup v h] at this
  exact this

theorem pairs_sorted_perm (v : Values) (h : (mapKeys v).Nodup) :
    v.sorted.pairs.Perm v.pairs :=
  List.Perm.flatMap_right _ (sorted_perm v h)

theorem pairs_sorted_pairwise (v : Values) :
    v.sorted.pairs.Pairwise (fun a b => strLe a.1 b.1 = true) := by
  unfold Values.pairs
  rw [List.pairwise_flatMap]
  constructor
  · intro e _
    rw [List.pairwise_map]
    exact List.pairwise_of_forall (fun _ _ => strLe_refl _)
  · unfold Values.sorted
    rw [List.pairwise_map]
    refine (sortKeys_sorted (mapKeys v)).imp ?_
    intro a b hab x hx y hy
    obtain ⟨_, _, rfl⟩ := List.mem_map.1 hx
    obtain ⟨_, _, rfl⟩ := List.mem_map.1 hy
    exact hab

theorem filter_key_nil_or_singleton (kvs : List (GoString × GoString)) (k : GoString)
    (h : (kvs.map Prod.fst).Nodup) :
    kvs.filter (fun kv => decide (kv.1 = k)) = [] ∨
      ∃ x, kvs.filter (fun kv => decide (kv.1 = k)) = [x] := by
  induction kvs with
  | nil => exact Or.inl rfl
  | cons kv kvs ih =>
    have h' : kv.1 ∉ kvs.map Prod.fst ∧ (kvs.map Prod.fst).Nodup := by
      simpa using h
    by_cases hk : kv.1 = k
    · right
      refine ⟨kv, ?_⟩
      rw [List.filter_cons, if_pos (by simpa using hk)]
      congr 1
      rw [List.filter_eq_nil_iff]
      intro e he
      simp only [decide_eq_true_eq]
      intro hek
      exact h'.1 (List.mem_map.2 ⟨e, he, by rw [hek, hk]⟩)
    · rw [List.filter_cons, if_neg (by simpa using hk)]
      exact ih h'.2

theorem filter_key_perm (kvs kvs' : List (GoString × GoString)) (k : GoString)
    (hp : kvs'.Perm kvs) (h : (kvs.map Prod.fst).Nodup) :
    kvs'.filter (fun kv => decide (kv.1 = k)) = kvs.filter (fun kv => decide (kv.1 = k)) := by
  have hf := hp.filter (fun kv => decide (kv.1 = k))
  rcases filter_key_nil_or_singleton kvs k h with h0 | ⟨x, h1⟩
  · rw [h0] at hf ⊢
    exact hf.eq_nil
  · rw [h1] at hf ⊢
    exact List.perm_singleton.1 hf

theorem joinAmp_ne_nil (x : GoString) (xs : List GoString) (h : x ≠ []) :
    joinAmp (x :: xs) ≠ [] := by
  cases xs with
  | nil => exact h
  | cons y ys => simp [joinAmp, h]

theorem encodePairs_ne_nil (ps : List (GoString × GoString)) (h : ps ≠ []) :
    encodePairs ps ≠ [] := by
  cases ps with
  | nil => exact absurd rfl h
  | cons p ps => exact joinAmp_ne_nil _ _ (encodePair_plain p).2.2

/-- C2: on a built request, after the calls `AddQuery(k_1, v_1)` .. `AddQuery(k_n, v_n)` the
request is as before but for the raw query: method, headers, body and every part of the URL in
front of and behind the query are unchanged.  With no call the request, and the URL that
`Request()` returns, are unchanged.  With at least one call the query string is the URL-encoded
form, joined by `&`, of a list of pairs that holds exactly the pairs of the query before and
the pairs added, in ascending order of the keys, and `Request()` returns the part of the URL in
front of the query, `?`, that query string, and the fragment if there is one.  When the keys
added are pairwise distinct the result does not depend on the order of the calls. -/
theorem AddQuery_sorted_query {Value : Type} (r : Request Value) (req : HTTPRequest)
    (kvs : List (GoString × GoString)) (h : r.req = some req) :
    ∃ req', (AddQueries r kvs).req = some req' ∧
      req'.Method = req.Method ∧ req'.Header = req.Header ∧ req'.Body = req.Body ∧
      req'.URL.hier = req.URL.hier ∧ req'.URL.ForceQuery = req.URL.ForceQuery ∧
      req'.URL.Fragment = req.URL.Fragment ∧
      (kvs = [] → AddQueries r kvs = r ∧ (AddQueries r kvs).Request = r.Request) ∧
      (kvs ≠ [] → ∃ pairs : List (GoString × GoString),
        pairs.Perm (req.URL.Query.pairs ++ kvs) ∧
        pairs.Pairwise (fun a b => strLe a.1 b.1 = true) ∧
        req'.URL.RawQuery = encodePairs pairs ∧
        (AddQueries r kvs).Request = some (req.URL.hier ++ ch '?' :: encodePairs pairs ++
          (if req.URL.Fragment ≠ [] then ch '#' :: req.URL.Fragment else []))) ∧
      (∀ kvs' : List (GoString × GoString), kvs'.Perm kvs → (kvs.map Prod.fst).Nodup →
        AddQueries r kvs' = AddQueries r kvs) := by
  rw [AddQueries_built r req kvs h]
  refine ⟨_, rfl, rfl, rfl, rfl, rfl, rfl, rfl, ?_, ?_, ?_⟩
  · intro hk
    subst hk
    have : ({ r with req := some { req with URL := { req.URL with
        RawQuery := List.foldl (fun (q : GoString) (kv : GoString × GoString) =>
          ((ParseQuery q).Add kv.1 kv.2).Encode) req.URL.RawQuery [] } } } : Request Value)
        = r := by
      cases r
      simp only at h
      subst h
      rfl
    rw [this]
    exact ⟨rfl, rfl⟩
  · intro hk
    obtain ⟨kv, rest, rfl⟩ := List.exists_cons_of_ne_nil hk
    have hwf := WF_foldl_Add (kv :: rest) _ (WF_ParseQuery req.URL.RawQuery)
    have hraw := foldl_rawQuery req.URL.RawQuery kv rest
    rw [Encode_eq_encodePairs] at hraw
    refine ⟨_, ?_, pairs_sorted_pairwise _, hraw, ?_⟩
    · exact (pairs_sorted_perm _ hwf.1).trans (pairs_foldl_Add_perm (kv :: rest) _)
    · have hne : encodePairs (List.foldl (fun m kv => Values.Add m kv.1 kv.2)
          (ParseQuery req.URL.RawQuery) (kv :: rest)).sorted.pairs ≠ [] := by
        apply encodePairs_ne_nil
        intro hnil
        have hp := (pairs_sorted_perm _ hwf.1).trans (pairs_foldl_Add_perm (kv :: rest) _)
        rw [hnil] at hp
        have := hp.symm.eq_nil
        simp at this
      simp only [Request.Request, Option.map_some', URL.String]
      rw [hraw, if_pos (Or.inr hne)]
  · intro kvs' hp hn
    rw [AddQueries_built r req kvs' h]
    have hraw : kvs'.foldl (fun (q : GoString) (kv : GoString × GoString) =>
          ((ParseQuery q).Add kv.1 kv.2).Encode) req.URL.RawQuery
        = kvs.foldl (fun (q : GoString) (kv : GoString × GoString) =>
          ((ParseQuery q).Add kv.1 kv.2).Encode) req.URL.RawQuery := by
      cases kvs with
      | nil => rw [hp.eq_nil]
      | cons kv rest =>
        cases kvs' with
        | nil => exact absurd hp.symm.eq_nil (by simp)
        | cons kv' rest' =>
          rw [foldl_rawQuery, foldl_rawQuery]
          apply Encode_congr _ _ (WF_foldl_Add _ _ (WF_ParseQuery _)).1
            (WF_foldl_Add _ _ (WF_ParseQuery _)).1
          intro k
          rw [mapGet_foldl_Add, mapGet_foldl_Add, filter_key_perm _ _ k hp hn]
    rw [hraw]

theorem AddQuery_sorted_query_witness :
    (New [WithBaseURL (str "http://localhost")]).Get exampleEnv (str "/test") []
      = .ok exampleRequest ∧
    exampleRequest.Request = some (str "http://localhost/test") ∧
    (exampleRequest.AddQuery (str "a") (str "value")).Request
      = some (str "http://localhost/test?a=value") ∧
    ∃ req', (AddQueries exampleRequest [(str "a", str "value")]).req = some req' ∧
      req'.Method = str "GET" ∧ req'.Header = [] ∧ req'.Body = none ∧
      req'.URL.hier = (exampleParse (str "http://localhost/test")).hier ∧
      req'.URL.ForceQuery = (exampleParse (str "http://localhost/test")).ForceQuery ∧
      req'.URL.Fragment = (exampleParse (str "http://localhost/test")).Fragment ∧
      ([(str "a", str "value")] = [] →
        AddQueries exampleRequest [(str "a", str "value")] = exampleRequest ∧
        (AddQueries exampleRequest [(str "a", str "value")]).Request
          = exampleRequest.Request) ∧
      ([(str "a", str "value")] ≠ [] → ∃ pairs : List (GoString × GoString),
        pairs.Perm ((exampleParse (str "http://localhost/test")).Query.pairs
          ++ [(str "a", str "value")]) ∧
        pairs.Pairwise (fun a b => strLe a.1 b.1 = true) ∧
        req'.URL.RawQuery = encodePairs pairs ∧
        (AddQueries exampleRequest [(str "a", str "value")]).Request
          = some ((exampleParse (str "http://localhost/test")).hier
              ++ ch '?' :: encodePairs pairs ++
              (if (exampleParse (str "http://localhost/test")).Fragment ≠ []
               then ch '#' :: (exampleParse (str "http://localhost/test")).Fragment
               else []))) ∧
      (∀ kvs' : List (GoString × GoString), kvs'.Perm [(str "a", str "value")] →
        ([(str "a", str "value")].map Prod.fst).Nodup →
        AddQueries exampleRequest kvs' = AddQueries exampleRequest [(str "a", str "value")]) :=
  ⟨rfl, by decide, by decide,
    AddQuery_sorted_query exampleRequest
      { Method := str "GET", URL := exampleParse (str "http://localhost/test"),
        Header := [], Body := none }
      [(str "a", str "value")] rfl⟩

end Resthelp
